import Mathlib

/-!
Verification of the merge engine of `signac/contrib/sync.py`.

The Python module is shallowly embedded: Python dicts and directory trees
become association lists, in-place mutation becomes explicit state passing,
exceptions become `Except`, and every action routed through the mutation
proxy `_DataModifyProxy` is recorded in an explicit log.  External
collaborators that are not part of the module (the `re` regex engine, the
repository/unit storage layer, interactive prompting) are modelled as
parameters or, where the claims need them, as definitions marked
`Modelled from the spec`.
-/

namespace Sync

/-! ### Association-list primitives

Python dicts (and directory listings) are modelled as ordered association
lists with unique keys.  `aset` implements `d[k] = v`: it replaces the value
in place if the key is present (keeping its position, as Python dicts do)
and appends otherwise.  `aremove` implements `os.remove` / `del`. -/

def alookup {α : Type} : List (String × α) → String → Option α
  | [], _ => none
  | (k, v) :: t, key => if k = key then some v else alookup t key

def aset {α : Type} : List (String × α) → String → α → List (String × α)
  | [], k, v => [(k, v)]
  | (k', v') :: t, k, v => if k' = k then (k, v) :: t else (k', v') :: aset t k v

def aremove {α : Type} : List (String × α) → String → List (String × α)
  | [], _ => []
  | (k', v') :: t, k => if k' = k then aremove t k else (k', v') :: aremove t k

def akeys {α : Type} (l : List (String × α)) : List String := l.map Prod.fst

/-! ### String ordering

`filecmp.dircmp` iterates directory entries in sorted order.  We sort with a
lexicographic comparison on code points (Python's `sorted` on `str`),
written out so that it evaluates by kernel reduction. -/

def charsLe : List Char → List Char → Bool
  | [], _ => true
  | _ :: _, [] => false
  | a :: as, b :: bs =>
    if a.toNat < b.toNat then true
    else if b.toNat < a.toNat then false
    else charsLe as bs

def strLe (a b : String) : Bool := charsLe a.data b.data

def insertStr (s : String) : List String → List String
  | [] => [s]
  | t :: ts => if strLe s t then s :: t :: ts else t :: insertStr s ts

def sortStrs (l : List String) : List String := l.foldr insertStr []

/-! ### Documents

A document value is a scalar or a nested document (spec §3).  Scalars are
modelled as integers; Python's `==` on (nested) dicts ignores key order, so
document equality `pyEq`/`pyDocEq` compares key-sorted normal forms. -/

inductive Value where
  | int : Int → Value
  | vmap : List (String × Value) → Value
deriving Repr

abbrev Doc := List (String × Value)

mutual
def valueBeq : Value → Value → Bool
  | .int a, .int b => a == b
  | .vmap a, .vmap b => docBeq a b
  | _, _ => false
def docBeq : List (String × Value) → List (String × Value) → Bool
  | [], [] => true
  | (k, v) :: t, (k', v') :: t' => k == k' && valueBeq v v' && docBeq t t'
  | _, _ => false
end

def insertPair (p : String × Value) : List (String × Value) → List (String × Value)
  | [] => [p]
  | q :: t => if strLe p.1 q.1 then p :: q :: t else q :: insertPair p t

def sortPairs (l : List (String × Value)) : List (String × Value) := l.foldr insertPair []

mutual
/-- Key-sort a value recursively; two documents are Python-`==` iff their
normal forms agree (documents have unique keys). -/
def normValue : Value → Value
  | .int n => .int n
  | .vmap d => .vmap (sortPairs (normDoc d))
def normDoc : List (String × Value) → List (String × Value)
  | [] => []
  | (k, v) :: t => (k, normValue v) :: normDoc t
end

/-- Python `==` on document values. -/
def pyEq (a b : Value) : Bool := valueBeq (normValue a) (normValue b)

/-- Python `==` on documents. -/
def pyDocEq (a b : Doc) : Bool := docBeq (sortPairs (normDoc a)) (sortPairs (normDoc b))

/-! ### Errors and the mutation-proxy action log -/

inductive PyErr where
  | typeError
  | keyError
  | valueError
  | runtimeError
  | assertionError
  | fileNotFound
  | notFound
  | destinationExists
  | mergeConflict (entry : String)
  | mergeSchemaConflict (schemaSrc schemaDst : List String)
deriving Repr, DecidableEq

/-- One mutating action of `_DataModifyProxy`.  Every proxy call is logged
(also in dry-run mode); in dry-run mode the state is left unchanged. -/
inductive Action where
  | set_value (key : String) (value : Value)
  | copy (src dst : String)
  | copytree (src dst : String)
  | remove (path : String)
deriving Repr

/-! ### `_merge_dicts`

The strategy for document keys is `strategy(key) -> bool` (the module's
built-ins `theirs`/`ours` take two file-path arguments; spec §4.3 notes the
document merge invokes the strategy with the key only, so the document
variants below take one argument). -/

def theirs (fn_src fn_dst : String) : Bool := true

def ours (fn_src fn_dst : String) : Bool := false

def theirs_key (key : String) : Bool := true

def ours_key (key : String) : Bool := false

structure DocMergeResult where
  res : Except PyErr (Finset String)
  doc : Doc
  log : List Action

def strategy_declines (strategy : Option (String → Bool)) (key : String) : Bool :=
  match strategy with
  | none => true
  | some f => !(f key)

/-- The loop of `_merge_dicts` over the entries of `src`.  The recursive call
`_merge_dicts(src[key], dst[key], ...)` is inlined: its leading `src == dst`
short-circuit appears as the `pyDocEq sd dd` test.  When `dst[key]` is not a
mapping, the recursion's `key in dst` test raises `TypeError` on the first
iteration (uncaught — the code catches only `KeyError`), unless the source
value is an empty mapping, in which case the recursion's loop body never
runs and it returns an empty set.  In-place mutation of the shared nested
dict is rendered as an (unlogged) write-back via `aset`. -/
def merge_dicts_go (dryRun : Bool) (strategy : Option (String → Bool)) :
    List (String × Value) → Doc → Finset String → List Action → DocMergeResult
  | [], dst, skipped, log => ⟨.ok skipped, dst, log⟩
  | (key, value) :: rest, dst, skipped, log =>
    match alookup dst key with
    | some dval =>
      if pyEq dval value then
        merge_dicts_go dryRun strategy rest dst skipped log
      else if strategy_declines strategy key then
        merge_dicts_go dryRun strategy rest dst (insert key skipped) log
      else
        match value with
        | .vmap sd =>
          match dval with
          | .vmap dd =>
            match (if pyDocEq sd dd then (⟨.ok ∅, dd, []⟩ : DocMergeResult)
                   else merge_dicts_go dryRun strategy sd dd ∅ []) with
            | ⟨.ok ks, dd', log'⟩ =>
                merge_dicts_go dryRun strategy rest (aset dst key (.vmap dd'))
                  (skipped ∪ ks) (log ++ log')
            | ⟨.error e, dd', log'⟩ =>
                if e = .keyError then
                  -- `except KeyError: pass`, falling through to `proxy.set_value`
                  merge_dicts_go dryRun strategy rest
                    (if dryRun then aset dst key (.vmap dd')
                     else aset (aset dst key (.vmap dd')) key value)
                    skipped (log ++ log' ++ [.set_value key value])
                else ⟨.error e, aset dst key (.vmap dd'), log ++ log'⟩
          | .int _ =>
            if sd.isEmpty then
              merge_dicts_go dryRun strategy rest dst skipped log
            else
              ⟨.error .typeError, dst, log⟩
        | .int _ =>
          merge_dicts_go dryRun strategy rest
            (if dryRun then dst else aset dst key value)
            skipped (log ++ [.set_value key value])
    | none =>
      merge_dicts_go dryRun strategy rest
        (if dryRun then dst else aset dst key value)
        skipped (log ++ [.set_value key value])
termination_by l => sizeOf l

/-- `_merge_dicts(src, dst, strategy, proxy)`. -/
def merge_dicts (dryRun : Bool) (strategy : Option (String → Bool)) (src dst : Doc) :
    DocMergeResult :=
  if pyDocEq src dst then ⟨.ok ∅, dst, []⟩
  else merge_dicts_go dryRun strategy src dst ∅ []

/-! ### `_merge_dirs`

Directory trees are association lists of named entries.  `filecmp.dircmp`
classifies the entries of the two directories; the code then loops over
`diff.left_only` (copying), `diff.diff_files` (conflict resolution) and
`diff.subdirs` (recursion), in that order and in sorted name order.
`re.match` is the external regex engine, abstracted as the `reMatch`
parameter; per the source, `re.match(p, fn)` is applied to the entry's own
name `fn`, never to its full relative path.  `filecmp`'s file comparison is
abstracted as content comparison. -/

inductive FSEntry where
  | file (content : String)
  | dir (entries : List (String × FSEntry))
deriving Repr

abbrev Subtree := List (String × FSEntry)

/-- `exclude and any([re.match(p, fn) for p in exclude])`: an empty (or
`None`) exclusion list is falsy and excludes nothing, which coincides with
`List.any` on the empty list. -/
def excludeMatch (reMatch : String → String → Bool) (exclude : List String) (fn : String) :
    Bool :=
  exclude.any (fun p => reMatch p fn)

def isDiffFile (srcT dstT : Subtree) (n : String) : Bool :=
  match alookup srcT n, alookup dstT n with
  | some (.file c1), some (.file c2) => c1 != c2
  | _, _ => false

def isCommonDir (srcT dstT : Subtree) (n : String) : Bool :=
  match alookup srcT n, alookup dstT n with
  | some (.dir _), some (.dir _) => true
  | _, _ => false

/-- `diff.left_only`: entries of `src` absent from `dst`, in sorted order. -/
def leftOnlyNames (srcT dstT : Subtree) : List String :=
  sortStrs ((akeys srcT).filter (fun n => (alookup dstT n).isNone))

/-- `diff.diff_files`: names that are files on both sides with differing
content, in sorted order. -/
def diffFileNames (srcT dstT : Subtree) : List String :=
  sortStrs ((akeys srcT).filter (isDiffFile srcT dstT))

/-- `diff.subdirs`: names that are directories on both sides, in sorted
order. -/
def commonDirNames (srcT dstT : Subtree) : List String :=
  sortStrs ((akeys srcT).filter (isCommonDir srcT dstT))

structure DirMergeResult where
  res : Except PyErr Unit
  tree : Subtree
  log : List Action

/-- The `diff.left_only` loop: skip excluded names, `proxy.copy` files,
`proxy.copytree` directories (the whole subtree, unfiltered). -/
def copy_phase (dryRun : Bool) (reMatch : String → String → Bool) (exclude : List String)
    (srcP dstP : String) (srcT : Subtree) :
    List String → Subtree → List Action → Subtree × List Action
  | [], dst, log => (dst, log)
  | fn :: rest, dst, log =>
    if excludeMatch reMatch exclude fn then
      copy_phase dryRun reMatch exclude srcP dstP srcT rest dst log
    else
      match alookup srcT fn with
      | some (.file c) =>
          copy_phase dryRun reMatch exclude srcP dstP srcT rest
            (if dryRun then dst else aset dst fn (.file c))
            (log ++ [.copy (srcP ++ "/" ++ fn) (dstP ++ "/" ++ fn)])
      | some (.dir sd) =>
          copy_phase dryRun reMatch exclude srcP dstP srcT rest
            (if dryRun then dst else aset dst fn (.dir sd))
            (log ++ [.copytree (srcP ++ "/" ++ fn) (dstP ++ "/" ++ fn)])
      | none =>
          -- unreachable: the names come from `src`'s listing
          copy_phase dryRun reMatch exclude srcP dstP srcT rest dst log

/-- The `diff.diff_files` loop: skip excluded names; with no strategy raise
`MergeConflict(fn)`; otherwise copy iff the strategy approves. -/
def diff_phase (dryRun : Bool) (reMatch : String → String → Bool) (exclude : List String)
    (strategy : Option (String → String → Bool)) (srcP dstP : String) (srcT : Subtree) :
    List String → Subtree → List Action → DirMergeResult
  | [], dst, log => ⟨.ok (), dst, log⟩
  | fn :: rest, dst, log =>
    if excludeMatch reMatch exclude fn then
      diff_phase dryRun reMatch exclude strategy srcP dstP srcT rest dst log
    else
      match strategy with
      | none => ⟨.error (.mergeConflict fn), dst, log⟩
      | some strat =>
        if strat (srcP ++ "/" ++ fn) (dstP ++ "/" ++ fn) then
          match alookup srcT fn with
          | some (.file c) =>
              diff_phase dryRun reMatch exclude strategy srcP dstP srcT rest
                (if dryRun then dst else aset dst fn (.file c))
                (log ++ [.copy (srcP ++ "/" ++ fn) (dstP ++ "/" ++ fn)])
          | some (.dir _) =>
              -- unreachable: diff names are files on both sides
              diff_phase dryRun reMatch exclude strategy srcP dstP srcT rest dst log
          | none =>
              diff_phase dryRun reMatch exclude strategy srcP dstP srcT rest dst log
        else
          diff_phase dryRun reMatch exclude strategy srcP dstP srcT rest dst log

theorem alookup_sizeOf_lt {α : Type} [SizeOf α] (l : List (String × α)) (k : String) (v : α)
    (h : alookup l k = some v) : sizeOf v < sizeOf l := by
  induction l with
  | nil => simp [alookup] at h
  | cons p t ih =>
    obtain ⟨k', v'⟩ := p
    by_cases hk : k' = k
    · simp only [alookup, hk, if_pos] at h
      cases h
      simp only [List.cons.sizeOf_spec, Prod.mk.sizeOf_spec]
      omega
    · simp only [alookup, hk, if_neg, if_false] at h
      have := ih h
      simp only [List.cons.sizeOf_spec, Prod.mk.sizeOf_spec]
      omega

/-- Look up entry `n` of `t` if it is a subdirectory, packaged with the size
bound that makes the recursion of `_merge_dirs` terminate. -/
def dirAt (t : Subtree) (n : String) :
    Option { sd : Subtree // sizeOf sd < sizeOf t } :=
  match h : alookup t n with
  | some (.dir sd) =>
      some ⟨sd, by
        have h1 := alookup_sizeOf_lt t n (FSEntry.dir sd) h
        have h2 : sizeOf (FSEntry.dir sd) = 1 + sizeOf sd := by simp
        omega⟩
  | some (.file _) => none
  | none => none

theorem dirAt_eq_some (t : Subtree) (n : String) (s : { sd : Subtree // sizeOf sd < sizeOf t })
    (h : dirAt t n = some s) : alookup t n = some (.dir s.val) := by
  rw [dirAt.eq_def] at h
  split at h
  next sd' heq =>
    cases h
    exact heq
  next x heq => cases h
  next heq => cases h

theorem dirAt_of_alookup (t : Subtree) (n : String) (sd : Subtree)
    (h : alookup t n = some (.dir sd)) : ∃ hs, dirAt t n = some ⟨sd, hs⟩ := by
  have hlt : sizeOf sd < sizeOf t := by
    have h1 := alookup_sizeOf_lt t n (FSEntry.dir sd) h
    have h2 : sizeOf (FSEntry.dir sd) = 1 + sizeOf sd := by simp
    omega
  refine ⟨hlt, ?_⟩
  rw [dirAt.eq_def]
  split
  next sd' heq =>
    rw [h] at heq
    simp only [Option.some.injEq, FSEntry.dir.injEq] at heq
    subst heq
    rfl
  next x heq =>
    rw [h] at heq
    simp at heq
  next heq =>
    rw [h] at heq
    simp at heq

mutual

/-- `_merge_dirs(src, dst, exclude, strategy, proxy)`: copy left-only
entries, resolve differing common files, recurse into common
subdirectories.  The in-place mutation of a subdirectory by the recursive
call is rendered as a write-back via `aset`; a raised error propagates with
the partial mutations kept (no rollback, as in the source). -/
def merge_dirs (dryRun : Bool) (reMatch : String → String → Bool) (exclude : List String)
    (strategy : Option (String → String → Bool)) (srcP dstP : String)
    (srcT dstT : Subtree) : DirMergeResult :=
  match copy_phase dryRun reMatch exclude srcP dstP srcT (leftOnlyNames srcT dstT) dstT [] with
  | (dst1, log1) =>
    match diff_phase dryRun reMatch exclude strategy srcP dstP srcT
        (diffFileNames srcT dstT) dst1 log1 with
    | ⟨.error e, dst2, log2⟩ => ⟨.error e, dst2, log2⟩
    | ⟨.ok _, dst2, log2⟩ =>
        subdir_phase dryRun reMatch exclude strategy srcP dstP srcT
          (commonDirNames srcT dstT) dst2 log2
termination_by (sizeOf srcT, 1, 0)

/-- The `diff.subdirs` loop of `_merge_dirs`: recurse on each common
subdirectory with the same exclusion list, strategy and proxy (no exclusion
check on the subdirectory name itself, as in the source). -/
def subdir_phase (dryRun : Bool) (reMatch : String → String → Bool) (exclude : List String)
    (strategy : Option (String → String → Bool)) (srcP dstP : String) (srcT : Subtree) :
    List String → Subtree → List Action → DirMergeResult
  | [], dst, log => ⟨.ok (), dst, log⟩
  | n :: rest, dst, log =>
    match dirAt srcT n, alookup dst n with
    | some sd, some (.dir dd) =>
      have hlt : sizeOf sd.val < sizeOf srcT := sd.2
      match merge_dirs dryRun reMatch exclude strategy (srcP ++ "/" ++ n) (dstP ++ "/" ++ n)
          sd.val dd with
      | ⟨.error e, dd', lg⟩ => ⟨.error e, aset dst n (.dir dd'), log ++ lg⟩
      | ⟨.ok _, dd', lg⟩ =>
          subdir_phase dryRun reMatch exclude strategy srcP dstP srcT rest
            (aset dst n (.dir dd')) (log ++ lg)
    | some _, some (.file _) =>
        -- unreachable: common-dir names are directories on both sides
        subdir_phase dryRun reMatch exclude strategy srcP dstP srcT rest dst log
    | some _, none =>
        subdir_phase dryRun reMatch exclude strategy srcP dstP srcT rest dst log
    | none, some _ =>
        subdir_phase dryRun reMatch exclude strategy srcP dstP srcT rest dst log
    | none, none =>
        subdir_phase dryRun reMatch exclude strategy srcP dstP srcT rest dst log
termination_by names => (sizeOf srcT, 0, names.length)

end

/-! ### `create_backup` and `_merge_json_dicts`

The disk holds the backing files of file-backed documents: a map from path
to (opaque) file content. -/

abbrev Disk := List (String × String)

def diskIsFile (disk : Disk) (p : String) : Bool := (alookup disk p).isSome

/-- `shutil.copy(src, dst)`: read `src`, write `dst`; raises if `src` is
missing. -/
def shutil_copy (disk : Disk) (src dst : String) : Except PyErr Disk :=
  match alookup disk src with
  | none => .error .fileNotFound
  | some c => .ok (aset disk dst c)

/-- `_DataModifyProxy.create_backup(path)` as a scoped combinator around the
with-block body.  It fails with `RuntimeError` if `path + '~'` already
exists; copies `path` to `path + '~'` unless dry-run; runs the body; and on
every exit path removes the backup unless dry-run (`os.remove` failure is
caught and only logged). -/
def create_backup_scope {α : Type} (dryRun : Bool) (path : String)
    (body : Disk → (Except PyErr α) × Disk) (disk : Disk) : (Except PyErr α) × Disk :=
  if diskIsFile disk (path ++ "~") then (.error .runtimeError, disk)
  else
    match (if dryRun then .ok disk else shutil_copy disk path (path ++ "~") :
        Except PyErr Disk) with
    | .error e =>
        -- the copy sits inside the `try`: the `finally` removal of the
        -- never-created backup raises IOError, which is caught and logged
        (.error e, aremove disk (path ++ "~"))
    | .ok disk1 =>
        match body disk1 with
        | (res, disk2) => (res, if dryRun then disk2 else aremove disk2 (path ++ "~"))

/-- `_merge_json_dicts(src, dst, strategy, proxy)`, generalized over the
inner document merge: `inner` stands for `_merge_dicts(src, dst, strategy,
proxy)` together with its effect on `dst`'s backing file through the
file-backed document collaborator (each `proxy.set_value` persists the
document to `dst._filename`; the persistence format is external to this
module).  `filename` is `dst._filename`.  On an inner failure the backup is
restored via `proxy.copy` and the failure re-raised; if the restore itself
fails, that failure propagates instead. -/
def merge_json_dicts_with (dryRun : Bool) (filename : Option String)
    (inner : Disk → (Except PyErr (Finset String)) × Disk) (disk : Disk) :
    (Except PyErr (Finset String)) × Disk :=
  match filename with
  | none => inner disk
  | some fn =>
    if diskIsFile disk fn then
      create_backup_scope dryRun fn
        (fun d =>
          match inner d with
          | (.ok r, d') => (.ok r, d')
          | (.error e, d') =>
            match (if dryRun then .ok d' else shutil_copy d' (fn ++ "~") fn :
                Except PyErr Disk) with
            | .ok d'' => (.error e, d'')
            | .error e2 => (.error e2, d'))
        disk
    else inner disk

/-! ### Orchestration: `merge_jobs` and `merge_projects`

The Unit/Repository storage layer is an external collaborator of `sync.py`
(spec §6); the structures and operations below carry the `Modelled from the
spec` marker. -/

/-- Modelled from the spec: a Unit (signac job) — stable content-derived id,
workspace root path, workspace directory tree, and unit document.  The
concrete job class is external to this module. -/
structure Job where
  jid : String
  wsPath : String
  workspace : Subtree
  doc : Doc
deriving Repr

/-- Modelled from the spec: the reserved manifest filename
(`Job.FN_MANIFEST`), immutable identity data excluded from the tree
merge. -/
def fnManifest : String := "signac_statepoint.json"

/-- Modelled from the spec: the reserved unit-document filename
(`Job.FN_DOCUMENT`), merged through the transactional document merge, not
the tree merge. -/
def fnDocument : String := "signac_job_document.json"

/-- Modelled from the spec: a Repository (signac project) — root directory,
repository document, structural schema, and its units.  `detect_schema()`
is modelled by the stored `schema`: a set of document keys compared by
equality and asymmetric difference. -/
structure Project where
  rootDir : String
  document : Doc
  schema : List String
  jobs : List Job
deriving Repr

mutual
def fsBeq : FSEntry → FSEntry → Bool
  | .file a, .file b => a == b
  | .dir a, .dir b => subtreeBeq a b
  | _, _ => false
def subtreeBeq : List (String × FSEntry) → List (String × FSEntry) → Bool
  | [], [] => true
  | (k, v) :: t, (k', v') :: t' => k == k' && fsBeq v v' && subtreeBeq t t'
  | _, _ => false
end

def jobBeq (a b : Job) : Bool :=
  a.jid == b.jid && a.wsPath == b.wsPath && subtreeBeq a.workspace b.workspace
    && docBeq a.doc b.doc

def jobsBeq : List Job → List Job → Bool
  | [], [] => true
  | a :: t, b :: t' => jobBeq a b && jobsBeq t t'
  | _, _ => false

/-- Modelled from the spec: `source == destination` on repositories
(structural equality; the concrete comparison lives in the external
repository class). -/
def projectBeq (a b : Project) : Bool :=
  a.rootDir == b.rootDir && docBeq a.document b.document && a.schema == b.schema
    && jobsBeq a.jobs b.jobs

/-- Modelled from the spec: the asymmetric difference between two schema
values. -/
def listDiff (a b : List String) : List String := a.filter (fun x => !(b.contains x))

def findJob : List Job → String → Option Job
  | [], _ => none
  | j :: t, i => if j.jid = i then some j else findJob t i

/-- Modelled from the spec: `Repository.clone(unit)` — raises
`DestinationExistsError` if a unit with that id already exists, otherwise
copies the unit into the destination as a new unit.  Note that `clone` is
invoked directly on the destination repository, not through the mutation
proxy. -/
def cloneJob (dst : Project) (j : Job) : Except PyErr Project :=
  if (findJob dst.jobs j.jid).isSome then .error .destinationExists
  else .ok { dst with jobs := dst.jobs ++ [j] }

/-- Write the (in-place mutated) destination unit back into the repository's
unit list. -/
def writeJob : List Job → Job → List Job
  | [], _ => []
  | k :: t, dj => if k.jid = dj.jid then dj :: t else k :: writeJob t dj

structure JobMergeResult where
  res : Except PyErr (Finset String)
  job : Job
  exclude : List String
  log : List Action

/-- `merge_jobs(src_job, dst_job, exclude, strategy, doc_strategy, dry_run)`.
The `dry_run` argument doubling as a proxy in the source is modelled by
passing the proxy's `dry_run` flag directly.  The caller's exclusion list
is extended in place with the two reserved filenames before the workspace
merge (`exclude.extend(...)`); the mutated list is part of the result,
modelling the aliasing.  The unit documents are merged through
`_merge_json_dicts`; unit documents are modelled in memory (the
`_filename is None` branch), document persistence being external to this
module.  The id assertion failure is `AssertionError`. -/
def merge_jobs (dryRun : Bool) (reMatch : String → String → Bool)
    (strategy : Option (String → String → Bool)) (docStrategy : Option (String → Bool))
    (exclude : List String) (srcJob dstJob : Job) : JobMergeResult :=
  if srcJob.jid != dstJob.jid then
    ⟨.error .assertionError, dstJob, exclude, []⟩
  else
    let exclude' := exclude ++ [fnManifest, fnDocument]
    match merge_dirs dryRun reMatch exclude' strategy srcJob.wsPath dstJob.wsPath
        srcJob.workspace dstJob.workspace with
    | ⟨.error e, ws', lg⟩ => ⟨.error e, { dstJob with workspace := ws' }, exclude', lg⟩
    | ⟨.ok _, ws', lg⟩ =>
      match merge_dicts dryRun docStrategy srcJob.doc dstJob.doc with
      | ⟨res, doc', lg2⟩ =>
          ⟨res, { dstJob with workspace := ws', doc := doc' }, exclude', lg ++ lg2⟩

structure LoopResult where
  res : Except PyErr Unit
  dst : Project
  excl : Option (List String)
  skipped : Finset String
  cloned : Nat
  merged : Nat
  log : List Action

/-- The per-unit loop of `merge_projects`: for each (selected) source unit,
try `destination.clone`; on `DestinationExistsError`, open the destination
unit and run `merge_jobs`.  `excl = none` models `exclude=None` (each
`merge_jobs` call then builds a fresh list); `excl = some l` models the
caller sharing one list object, which each `merge_jobs` call extends in
place. -/
def merge_projects_loop (dryRun : Bool) (reMatch : String → String → Bool)
    (strategy : Option (String → String → Bool)) (docStrategy : Option (String → Bool))
    (selection : Option (List String)) :
    List Job → Project → Option (List String) → Finset String → Nat → Nat → List Action →
    LoopResult
  | [], dst, excl, sk, c, m, lg => ⟨.ok (), dst, excl, sk, c, m, lg⟩
  | j :: rest, dst, excl, sk, c, m, lg =>
    if (match selection with | none => false | some ids => !(ids.contains j.jid)) then
      merge_projects_loop dryRun reMatch strategy docStrategy selection rest dst excl sk c m lg
    else
      match cloneJob dst j with
      | .ok dst' =>
          merge_projects_loop dryRun reMatch strategy docStrategy selection rest dst' excl
            sk (c + 1) m lg
      | .error _ =>
        match findJob dst.jobs j.jid with
        | none => ⟨.error .notFound, dst, excl, sk, c, m, lg⟩
        | some dj =>
          match merge_jobs dryRun reMatch strategy docStrategy
              (match excl with | none => [] | some l => l) j dj with
          | ⟨.error e, dj', excl', lg'⟩ =>
              ⟨.error e, { dst with jobs := writeJob dst.jobs dj' },
                (match excl with | none => none | some _ => some excl'), sk, c, m, lg ++ lg'⟩
          | ⟨.ok ks, dj', excl', lg'⟩ =>
              merge_projects_loop dryRun reMatch strategy docStrategy selection rest
                { dst with jobs := writeJob dst.jobs dj' }
                (match excl with | none => none | some _ => some excl')
                (sk ∪ ks) c (m + 1) (lg ++ lg')

structure MPResult where
  res : Except PyErr (Finset String)
  dst : Project
  excludeOut : Option (List String)
  cloned : Nat
  merged : Nat
  log : List Action

/-- `merge_projects(source, destination, exclude, strategy, doc_strategy,
selection, check_schema, dry_run)`.  `source == destination` raises
`ValueError`.  The optional schema pre-check raises `MergeSchemaConflict`
carrying both schemas (the source's two nested conditionals are flattened
into one conjunction).  The repository documents are then merged through
`_merge_json_dicts` (modelled in memory, the `_filename is None` branch),
and each source unit is cloned or merged.  `selection` is already the
normalized set of unit-id strings.  The cloned/merged counters, logged by
the source, are exposed as outputs. -/
def merge_projects (reMatch : String → String → Bool) (source destination : Project)
    (exclude : Option (List String)) (strategy : Option (String → String → Bool))
    (docStrategy : Option (String → Bool)) (selection : Option (List String))
    (checkSchema dryRun : Bool) : MPResult :=
  if projectBeq source destination then
    ⟨.error .valueError, destination, exclude, 0, 0, []⟩
  else if checkSchema && !destination.schema.isEmpty
      && !(source.schema == destination.schema)
      && (!(listDiff source.schema destination.schema).isEmpty
          || !(listDiff destination.schema source.schema).isEmpty) then
    ⟨.error (.mergeSchemaConflict source.schema destination.schema), destination,
      exclude, 0, 0, []⟩
  else
    match merge_dicts dryRun docStrategy source.document destination.document with
    | ⟨.error e, doc', lg0⟩ =>
        ⟨.error e, { destination with document := doc' }, exclude, 0, 0, lg0⟩
    | ⟨.ok sk0, doc', lg0⟩ =>
      match merge_projects_loop dryRun reMatch strategy docStrategy selection
          source.jobs { destination with document := doc' } exclude sk0 0 0 lg0 with
      | ⟨.error e, dst', excl', _, c, m, lg⟩ => ⟨.error e, dst', excl', c, m, lg⟩
      | ⟨.ok _, dst', excl', sk, c, m, lg⟩ => ⟨.ok sk, dst', excl', c, m, lg⟩

/-! ### Basic lemmas about the association-list primitives -/

theorem alookup_aset_self {α : Type} (l : List (String × α)) (k : String) (v : α) :
    alookup (aset l k v) k = some v := by
  induction l with
  | nil => simp [aset, alookup]
  | cons p t ih =>
    obtain ⟨k', v'⟩ := p
    by_cases hk : k' = k
    · simp [aset, hk, alookup]
    · simp [aset, hk, alookup, ih]

theorem alookup_aset_ne {α : Type} (l : List (String × α)) (k k' : String) (v : α)
    (h : k' ≠ k) : alookup (aset l k v) k' = alookup l k' := by
  have hne : k ≠ k' := fun hh => h hh.symm
  induction l with
  | nil =>
    simp only [aset, alookup]
    rw [if_neg hne]
  | cons p t ih =>
    obtain ⟨k0, v0⟩ := p
    by_cases hk : k0 = k
    · subst hk
      simp only [aset, if_pos rfl, alookup]
      rw [if_neg hne, if_neg hne]
    · simp only [aset, if_neg hk, alookup]
      by_cases hk' : k0 = k'
      · rw [if_pos hk', if_pos hk']
      · rw [if_neg hk', if_neg hk', ih]

theorem aset_id {α : Type} (l : List (String × α)) (k : String) (v : α)
    (h : alookup l k = some v) : aset l k v = l := by
  induction l with
  | nil => simp [alookup] at h
  | cons p t ih =>
    obtain ⟨k', v'⟩ := p
    by_cases hk : k' = k
    · subst hk
      rw [alookup, if_pos rfl] at h
      cases h
      simp [aset]
    · rw [alookup, if_neg hk] at h
      simp [aset, hk, ih h]

theorem alookup_aremove_self {α : Type} (l : List (String × α)) (k : String) :
    alookup (aremove l k) k = none := by
  induction l with
  | nil => simp [aremove, alookup]
  | cons p t ih =>
    obtain ⟨k', v'⟩ := p
    by_cases hk : k' = k
    · simpa [aremove, hk] using ih
    · rw [aremove, if_neg hk, alookup, if_neg hk]
      exact ih

theorem alookup_aremove_ne {α : Type} (l : List (String × α)) (k k' : String)
    (h : k' ≠ k) : alookup (aremove l k) k' = alookup l k' := by
  induction l with
  | nil => simp [aremove]
  | cons p t ih =>
    obtain ⟨k0, v0⟩ := p
    by_cases hk : k0 = k
    · subst hk
      rw [aremove, if_pos rfl, alookup, if_neg (fun hh => h hh.symm), ih]
    · rw [aremove, if_neg hk, alookup, alookup]
      by_cases hk' : k0 = k'
      · rw [if_pos hk', if_pos hk']
      · rw [if_neg hk', if_neg hk', ih]

theorem alookup_none_not_mem_akeys {α : Type} (l : List (String × α)) (k : String)
    (h : alookup l k = none) : ¬ k ∈ akeys l := by
  induction l with
  | nil => simp [akeys]
  | cons p t ih =>
    obtain ⟨k', v'⟩ := p
    by_cases hk : k' = k
    · rw [alookup, if_pos hk] at h
      exact absurd h (by simp)
    · rw [alookup, if_neg hk] at h
      intro hmem
      rcases (by simpa [akeys] using hmem : k = k' ∨ k ∈ akeys t) with h1 | h2
      · exact hk h1.symm
      · exact ih h h2

theorem alookup_some_mem_akeys {α : Type} (l : List (String × α)) (k : String) (v : α)
    (h : alookup l k = some v) : k ∈ akeys l := by
  induction l with
  | nil => simp [alookup] at h
  | cons p t ih =>
    obtain ⟨k', v'⟩ := p
    by_cases hk : k' = k
    · simp [akeys, hk]
    · rw [alookup, if_neg hk] at h
      simpa [akeys] using Or.inr (ih h)

theorem mem_insertStr (a s : String) (l : List String) :
    a ∈ insertStr s l ↔ a = s ∨ a ∈ l := by
  induction l with
  | nil => simp [insertStr]
  | cons t ts ih =>
    by_cases hle : strLe s t
    · simp [insertStr, hle]
    · simp [insertStr, hle, ih]
      tauto

theorem mem_sortStrs (a : String) (l : List String) : a ∈ sortStrs l ↔ a ∈ l := by
  induction l with
  | nil => simp [sortStrs]
  | cons t ts ih =>
    simp [sortStrs] at ih ⊢
    rw [mem_insertStr]
    simp [ih]

theorem str_append_tilde_ne (s : String) : s ++ "~" ≠ s := by
  intro h
  have hlen := congrArg String.length h
  rw [String.length_append] at hlen
  have : "~".length = 1 := rfl
  omega

/-! ### Claim C9 -/

/-- Claim C9: for every document and every strategy (including the null
strategy), merging a document with a structurally equal document returns an
empty SkippedKeys set, performs zero mutating proxy calls (no `set_value`),
and leaves the destination unchanged. -/
theorem c9_equality_short_circuit (dryRun : Bool) (strategy : Option (String → Bool))
    (d d' : Doc) (h : pyDocEq d d' = true) :
    merge_dicts dryRun strategy d d' = ⟨.ok ∅, d', []⟩ := by
  simp [merge_dicts, h]

theorem c9_equality_short_circuit_witness :
    pyDocEq [("a", .int 1), ("b", .vmap [("c", .int 2)])]
        [("b", .vmap [("c", .int 2)]), ("a", .int 1)] = true ∧
    merge_dicts false none [("a", .int 1), ("b", .vmap [("c", .int 2)])]
        [("b", .vmap [("c", .int 2)]), ("a", .int 1)]
      = ⟨.ok ∅, [("b", .vmap [("c", .int 2)]), ("a", .int 1)], []⟩ :=
  ⟨by decide, c9_equality_short_circuit false none _ _ (by decide)⟩

/-! ### Claim C8 -/

/-- Claim C8: for source `{a: 1, b: 2}` and destination `{a: 99}`, the
document merge with the `theirs` strategy yields destination `{a: 1, b: 2}`
and an empty SkippedKeys set, while the merge with the `ours` strategy
yields destination `{a: 99, b: 2}` and SkippedKeys `{a}`. -/
theorem c8_theirs_ours_symmetry :
    merge_dicts false (some theirs_key) [("a", .int 1), ("b", .int 2)] [("a", .int 99)]
      = ⟨.ok ∅, [("a", .int 1), ("b", .int 2)],
          [.set_value "a" (.int 1), .set_value "b" (.int 2)]⟩ ∧
    merge_dicts false (some ours_key) [("a", .int 1), ("b", .int 2)] [("a", .int 99)]
      = ⟨.ok {"a"}, [("a", .int 99), ("b", .int 2)], [.set_value "b" (.int 2)]⟩ := by
  constructor <;>
    simp +decide [merge_dicts, merge_dicts_go, alookup, aset, pyEq, pyDocEq, normValue,
      normDoc, sortPairs, insertPair, valueBeq, docBeq, strategy_declines, theirs_key, ours_key]

/-! ### Claim C4 -/

/-- Claim C4 counterexample: at key `k` both documents have (unequal) values,
the strategy approves the overwrite, the source value is a nested document
and the destination value is a scalar; the claim asserts
`set_value(dst, k, value)` overwrites the destination value, but the code
raises `TypeError` (from `key in dst` inside the inapplicable recursion,
which the `except KeyError` clause does not catch), performs no `set_value`
and leaves the destination unchanged. -/
theorem c4_counterexample :
    merge_dicts false (some theirs_key) [("k", .vmap [("a", .int 1)])] [("k", .int 2)]
      = ⟨.error .typeError, [("k", .int 2)], []⟩ := by
  simp +decide [merge_dicts, merge_dicts_go, alookup, pyEq, pyDocEq, normValue,
    normDoc, sortPairs, insertPair, valueBeq, docBeq, strategy_declines, theirs_key]

/-- Claim C4 (amended): in the document merge, for a key present in both
documents with unequal values where the strategy returns true: if the
source value is a scalar, `set_value(dst, key, value)` is applied,
overwriting the destination's value with the source's; if the source value
is a nested document but the destination's value is not document-shaped,
no `set_value` is applied — the merge raises `TypeError` when the source's
nested document is nonempty (and silently skips the key when it is
empty). -/
theorem c4_scalar_overwrite_vs_type_error :
    (∀ (strategy : Option (String → Bool)) (k : String) (n : Int) (dst : Doc) (w : Value),
      alookup dst k = some w →
      pyEq w (.int n) = false →
      strategy_declines strategy k = false →
      pyDocEq [(k, .int n)] dst = false →
      merge_dicts false strategy [(k, .int n)] dst
        = ⟨.ok ∅, aset dst k (.int n), [.set_value k (.int n)]⟩) ∧
    (∀ (strategy : Option (String → Bool)) (k : String) (sd : Doc) (m : Int) (dst : Doc),
      alookup dst k = some (.int m) →
      strategy_declines strategy k = false →
      pyDocEq [(k, .vmap sd)] dst = false →
      sd ≠ [] →
      merge_dicts false strategy [(k, .vmap sd)] dst = ⟨.error .typeError, dst, []⟩) := by
  constructor
  · intro strategy k n dst w hw hne hstrat hne0
    rw [merge_dicts, if_neg (by simp [hne0])]
    rw [merge_dicts_go, hw]
    simp only [hne, hstrat, Bool.false_eq_true, if_false]
    rw [merge_dicts_go]
    simp
  · intro strategy k sd m dst hw hstrat hne0 hsd
    have hne : pyEq (.int m) (.vmap sd) = false := by
      rw [pyEq, normValue, normValue]
      rfl
    have hsd' : sd.isEmpty = false := by
      cases sd with
      | nil => exact absurd rfl hsd
      | cons a t => rfl
    rw [merge_dicts, if_neg (by simp [hne0])]
    rw [merge_dicts_go, hw]
    simp only [hne, hstrat, hsd', Bool.false_eq_true, if_false]

theorem c4_scalar_overwrite_vs_type_error_witness :
    (merge_dicts false (some theirs_key) [("k", .int 5)] [("k", .int 1)]
      = ⟨.ok ∅, [("k", .int 5)], [.set_value "k" (.int 5)]⟩) ∧
    (merge_dicts false (some theirs_key) [("k", .vmap [("a", .int 1)])] [("k", .int 7)]
      = ⟨.error .typeError, [("k", .int 7)], []⟩) := by
  constructor
  · have h := c4_scalar_overwrite_vs_type_error.1 (some theirs_key) "k" 5
      [("k", .int 1)] (.int 1) rfl rfl rfl rfl
    simpa [aset] using h
  · exact c4_scalar_overwrite_vs_type_error.2 (some theirs_key) "k" [("a", .int 1)] 7
      [("k", .int 7)] rfl rfl rfl (by simp)

/-! ### Claim C1 -/

/-- Claim C1: for a file-backed destination document whose backing file
exists on disk (and with no stale backup blocking the transaction), if the
inner document merge fails with any exception, then after the failure
propagates the backing file's content is identical to its pre-merge content
and no backup file (`path + '~'`) remains on disk.  `inner` only writes the
destination's backing file, which is the frame hypothesis `hframe`. -/
theorem c1_transactional_rollback (fn : String) (disk : Disk) (c : String)
    (inner : Disk → (Except PyErr (Finset String)) × Disk) (e : PyErr)
    (hc : alookup disk fn = some c)
    (hnb : diskIsFile disk (fn ++ "~") = false)
    (hframe : ∀ d p, p ≠ fn → alookup ((inner d).2) p = alookup d p)
    (hfail : (inner (aset disk (fn ++ "~") c)).1 = .error e) :
    (merge_json_dicts_with false (some fn) inner disk).1 = .error e ∧
    alookup (merge_json_dicts_with false (some fn) inner disk).2 fn = alookup disk fn ∧
    diskIsFile (merge_json_dicts_with false (some fn) inner disk).2 (fn ++ "~") = false := by
  have htilde : fn ++ "~" ≠ fn := fun h => str_append_tilde_ne fn h
  have hfile : diskIsFile disk fn = true := by simp [diskIsFile, hc]
  set disk1 := aset disk (fn ++ "~") c with hdisk1
  rcases hinner : inner disk1 with ⟨res1, d2⟩
  have hres1 : res1 = .error e := by
    rw [hinner] at hfail
    exact hfail
  subst hres1
  have hbackup2 : alookup d2 (fn ++ "~") = some c := by
    have := hframe disk1 (fn ++ "~") htilde
    rw [hinner] at this
    simpa [hdisk1, alookup_aset_self] using this
  have hrun :
      merge_json_dicts_with false (some fn) inner disk
        = (.error e, aremove (aset d2 fn c) (fn ++ "~")) := by
    rw [merge_json_dicts_with]
    rw [if_pos hfile]
    rw [create_backup_scope, if_neg (by simp [hnb])]
    simp only [if_false, Bool.false_eq_true]
    rw [shutil_copy, hc]
    simp only
    rw [hinner]
    simp only
    rw [shutil_copy, hbackup2]
  rw [hrun]
  refine ⟨rfl, ?_, ?_⟩
  · rw [alookup_aremove_ne _ _ _ (fun h => htilde h.symm), alookup_aset_self, hc]
  · simp [diskIsFile, alookup_aremove_self]

/-! ### Claim C6 -/

theorem alookup_cons_none {α : Type} (key : String) (value : α) (rest : List (String × α))
    (k : String) (hk : alookup ((key, value) :: rest) k = none) :
    ¬ key = k ∧ alookup rest k = none := by
  by_cases h : key = k
  · rw [alookup, if_pos h] at hk
    cases hk
  · rw [alookup, if_neg h] at hk
    exact ⟨h, hk⟩

theorem merge_dicts_go_preserves (dryRun : Bool) (strategy : Option (String → Bool)) :
    ∀ (l : List (String × Value)) (dst : Doc) (sk : Finset String) (lg : List Action)
      (k : String), alookup l k = none →
      alookup (merge_dicts_go dryRun strategy l dst sk lg).doc k = alookup dst k := by
  intro l
  induction l with
  | nil =>
    intro dst sk lg k hk
    rw [merge_dicts_go]
  | cons p rest ih =>
    obtain ⟨key, value⟩ := p
    intro dst sk lg k hk
    obtain ⟨hkey, htail⟩ := alookup_cons_none key value rest k hk
    have hkne : k ≠ key := fun h => hkey h.symm
    rw [merge_dicts_go]
    split
    next dval hdk =>
      by_cases h1 : pyEq dval value = true
      · rw [if_pos h1]
        exact ih dst sk lg k htail
      · rw [if_neg h1]
        by_cases h2 : strategy_declines strategy key = true
        · rw [if_pos h2]
          exact ih dst (insert key sk) lg k htail
        · rw [if_neg h2]
          cases value with
          | int n =>
            cases dryRun
            · exact (ih (aset dst key (.int n)) sk (lg ++ [.set_value key (.int n)]) k
                htail).trans (alookup_aset_ne dst key k (.int n) hkne)
            · exact ih dst sk (lg ++ [.set_value key (.int n)]) k htail
          | vmap sd =>
            cases dval with
            | int m =>
              cases sd with
              | nil => exact ih dst sk lg k htail
              | cons q qs => rfl
            | vmap dd =>
              simp only []
              by_cases hpd : pyDocEq sd dd = true
              · rw [if_pos hpd]
                exact (ih (aset dst key (.vmap dd)) (sk ∪ ∅) (lg ++ []) k htail).trans
                  (alookup_aset_ne dst key k (.vmap dd) hkne)
              · rw [if_neg hpd]
                split
                next ks dd' log' hrec =>
                  exact (ih (aset dst key (.vmap dd')) (sk ∪ ks) (lg ++ log') k htail).trans
                    (alookup_aset_ne dst key k (.vmap dd') hkne)
                next e dd' log' hrec =>
                  by_cases he : e = .keyError
                  · rw [if_pos he]
                    cases dryRun
                    · exact (ih (aset (aset dst key (.vmap dd')) key (.vmap sd)) sk
                        (lg ++ log' ++ [.set_value key (.vmap sd)]) k htail).trans
                        ((alookup_aset_ne (aset dst key (.vmap dd')) key k (.vmap sd)
                          hkne).trans (alookup_aset_ne dst key k (.vmap dd') hkne))
                    · exact (ih (aset dst key (.vmap dd')) sk
                        (lg ++ log' ++ [.set_value key (.vmap sd)]) k htail).trans
                        (alookup_aset_ne dst key k (.vmap dd') hkne)
                  · rw [if_neg he]
                    exact alookup_aset_ne dst key k (.vmap dd') hkne
    next hdk =>
      -- `key in dst` fails: unconditional set_value
      cases dryRun
      · exact (ih (aset dst key value) sk (lg ++ [.set_value key value]) k htail).trans
          (alookup_aset_ne dst key k value hkne)
      · exact ih dst sk (lg ++ [.set_value key value]) k htail

theorem merge_dicts_preserves (dryRun : Bool) (strategy : Option (String → Bool))
    (src dst : Doc) (k : String) (h : alookup src k = none) :
    alookup (merge_dicts dryRun strategy src dst).doc k = alookup dst k := by
  rw [merge_dicts]
  by_cases he : pyDocEq src dst = true
  · rw [if_pos he]
  · rw [if_neg he]
    exact merge_dicts_go_preserves dryRun strategy src dst ∅ [] k h

theorem copy_phase_preserves (dryRun : Bool) (reMatch : String → String → Bool)
    (exclude : List String) (srcP dstP : String) (srcT : Subtree) :
    ∀ (names : List String) (dst : Subtree) (lg : List Action) (n : String),
      ¬ n ∈ names →
      alookup (copy_phase dryRun reMatch exclude srcP dstP srcT names dst lg).1 n
        = alookup dst n := by
  intro names
  induction names with
  | nil =>
    intro dst lg n hn
    rw [copy_phase]
  | cons fn rest ih =>
    intro dst lg n hn
    have hfn : n ≠ fn := fun h => hn (by simp [h])
    have hrest : ¬ n ∈ rest := fun h => hn (by simp [h])
    rw [copy_phase]
    cases hex : excludeMatch reMatch exclude fn
    · rcases hl : alookup srcT fn with _ | entry
      · exact ih dst lg n hrest
      · cases entry with
        | file c =>
          cases dryRun
          · exact (ih (aset dst fn (.file c))
              (lg ++ [.copy (srcP ++ "/" ++ fn) (dstP ++ "/" ++ fn)]) n hrest).trans
              (alookup_aset_ne dst fn n (.file c) hfn)
          · exact ih dst (lg ++ [.copy (srcP ++ "/" ++ fn) (dstP ++ "/" ++ fn)]) n hrest
        | dir sd =>
          cases dryRun
          · exact (ih (aset dst fn (.dir sd))
              (lg ++ [.copytree (srcP ++ "/" ++ fn) (dstP ++ "/" ++ fn)]) n hrest).trans
              (alookup_aset_ne dst fn n (.dir sd) hfn)
          · exact ih dst (lg ++ [.copytree (srcP ++ "/" ++ fn) (dstP ++ "/" ++ fn)]) n hrest
    · exact ih dst lg n hrest

theorem diff_phase_preserves (dryRun : Bool) (reMatch : String → String → Bool)
    (exclude : List String) (strategy : Option (String → String → Bool))
    (srcP dstP : String) (srcT : Subtree) :
    ∀ (names : List String) (dst : Subtree) (lg : List Action) (n : String),
      ¬ n ∈ names →
      alookup (diff_phase dryRun reMatch exclude strategy srcP dstP srcT names dst lg).tree n
        = alookup dst n := by
  intro names
  induction names with
  | nil =>
    intro dst lg n hn
    rw [diff_phase]
  | cons fn rest ih =>
    intro dst lg n hn
    have hfn : n ≠ fn := fun h => hn (by simp [h])
    have hrest : ¬ n ∈ rest := fun h => hn (by simp [h])
    rw [diff_phase.eq_def]
    simp only []
    cases hex : excludeMatch reMatch exclude fn
    · cases strategy with
      | none => rfl
      | some strat =>
        simp only []
        cases hst : strat (srcP ++ "/" ++ fn) (dstP ++ "/" ++ fn)
        · exact ih dst lg n hrest
        · rcases hl : alookup srcT fn with _ | entry
          · exact ih dst lg n hrest
          · cases entry with
            | file c =>
              cases dryRun
              · exact (ih (aset dst fn (.file c))
                  (lg ++ [.copy (srcP ++ "/" ++ fn) (dstP ++ "/" ++ fn)]) n hrest).trans
                  (alookup_aset_ne dst fn n (.file c) hfn)
              · exact ih dst
                  (lg ++ [.copy (srcP ++ "/" ++ fn) (dstP ++ "/" ++ fn)]) n hrest
            | dir sd =>
              exact ih dst lg n hrest
    · exact ih dst lg n hrest

theorem subdir_phase_preserves (dryRun : Bool) (reMatch : String → String → Bool)
    (exclude : List String) (strategy : Option (String → String → Bool))
    (srcP dstP : String) (srcT : Subtree) :
    ∀ (names : List String) (dst : Subtree) (lg : List Action) (n : String),
      ¬ n ∈ names →
      alookup (subdir_phase dryRun reMatch exclude strategy srcP dstP srcT names dst lg).tree n
        = alookup dst n := by
  intro names
  induction names with
  | nil =>
    intro dst lg n hn
    rw [subdir_phase]
  | cons nm rest ih =>
    intro dst lg n hn
    have hnm : n ≠ nm := fun h => hn (by simp [h])
    have hrest : ¬ n ∈ rest := fun h => hn (by simp [h])
    rw [subdir_phase]
    rcases hl : dirAt srcT nm with _ | sd
    · rcases hd : alookup dst nm with _ | dentry
      · exact ih dst lg n hrest
      · exact ih dst lg n hrest
    · rcases hd : alookup dst nm with _ | dentry
      · exact ih dst lg n hrest
      · cases dentry with
        | file c => exact ih dst lg n hrest
        | dir dd =>
          simp only []
          split
          next e dd' lg' hrec =>
            exact alookup_aset_ne dst nm n (.dir dd') hnm
          next u dd' lg' hrec =>
            exact (ih (aset dst nm (.dir dd')) (lg ++ lg') n hrest).trans
              (alookup_aset_ne dst nm n (.dir dd') hnm)

theorem merge_dirs_preserves (dryRun : Bool) (reMatch : String → String → Bool)
    (exclude : List String) (strategy : Option (String → String → Bool))
    (srcP dstP : String) (srcT dstT : Subtree) (n : String)
    (h : alookup srcT n = none) :
    alookup (merge_dirs dryRun reMatch exclude strategy srcP dstP srcT dstT).tree n
      = alookup dstT n := by
  have hmem : ¬ n ∈ akeys srcT := alookup_none_not_mem_akeys _ _ h
  have h1 : ¬ n ∈ leftOnlyNames srcT dstT := by
    intro hm
    rw [leftOnlyNames, mem_sortStrs] at hm
    exact hmem (List.mem_filter.mp hm).1
  have h2 : ¬ n ∈ diffFileNames srcT dstT := by
    intro hm
    rw [diffFileNames, mem_sortStrs] at hm
    exact hmem (List.mem_filter.mp hm).1
  have h3 : ¬ n ∈ commonDirNames srcT dstT := by
    intro hm
    rw [commonDirNames, mem_sortStrs] at hm
    exact hmem (List.mem_filter.mp hm).1
  rw [merge_dirs]
  rcases hcp : copy_phase dryRun reMatch exclude srcP dstP srcT
      (leftOnlyNames srcT dstT) dstT [] with ⟨dst1, log1⟩
  have hc : alookup dst1 n = alookup dstT n := by
    have hx := copy_phase_preserves dryRun reMatch exclude srcP dstP srcT
      (leftOnlyNames srcT dstT) dstT [] n h1
    rw [hcp] at hx
    exact hx
  simp only []
  rcases hdp : diff_phase dryRun reMatch exclude strategy srcP dstP srcT
      (diffFileNames srcT dstT) dst1 log1 with ⟨res2, dst2, log2⟩
  have hd : alookup dst2 n = alookup dst1 n := by
    have hx := diff_phase_preserves dryRun reMatch exclude strategy srcP dstP srcT
      (diffFileNames srcT dstT) dst1 log1 n h2
    rw [hdp] at hx
    exact hx
  cases res2 with
  | error e => exact hd.trans hc
  | ok u =>
    exact (subdir_phase_preserves dryRun reMatch exclude strategy srcP dstP srcT
      (commonDirNames srcT dstT) dst2 log2 n h3).trans (hd.trans hc)

/-- Claim C6: destination-only content is preserved.  The document merge
never removes (or alters) a key present only in the destination document,
and the directory merge never removes or modifies an entry present only in
the destination directory, for every strategy, exclusion list, proxy mode
and outcome (including error outcomes). -/
theorem c6_destination_only_preserved :
    (∀ (dryRun : Bool) (strategy : Option (String → Bool)) (src dst : Doc) (k : String),
      alookup src k = none →
      alookup (merge_dicts dryRun strategy src dst).doc k = alookup dst k) ∧
    (∀ (dryRun : Bool) (reMatch : String → String → Bool) (exclude : List String)
      (strategy : Option (String → String → Bool)) (srcP dstP : String)
      (srcT dstT : Subtree) (n : String),
      alookup srcT n = none →
      alookup (merge_dirs dryRun reMatch exclude strategy srcP dstP srcT dstT).tree n
        = alookup dstT n) :=
  ⟨fun dryRun strategy src dst k h => merge_dicts_preserves dryRun strategy src dst k h,
   fun dryRun reMatch exclude strategy srcP dstP srcT dstT n h =>
     merge_dirs_preserves dryRun reMatch exclude strategy srcP dstP srcT dstT n h⟩

theorem c6_destination_only_preserved_witness :
    alookup (merge_dicts false (some theirs_key) [("a", .int 1)]
        [("a", .int 2), ("keep", .int 7)]).doc "keep"
      = alookup [("a", .int 2), ("keep", .int 7)] "keep" ∧
    alookup (merge_dirs false (fun p fn => p == fn) [] none "S" "D"
        [("a.txt", .file "x")] [("keep.txt", .file "y")]).tree "keep.txt"
      = alookup [("keep.txt", .file "y")] "keep.txt" :=
  ⟨c6_destination_only_preserved.1 false (some theirs_key) [("a", .int 1)]
      [("a", .int 2), ("keep", .int 7)] "keep" rfl,
   c6_destination_only_preserved.2 false (fun p fn => p == fn) [] none "S" "D"
      [("a.txt", .file "x")] [("keep.txt", .file "y")] "keep.txt" rfl⟩

/-! ### Dry-run mode lemmas: every proxy action is a no-op -/

theorem merge_dicts_go_dry (strategy : Option (String → Bool)) :
    ∀ (l : List (String × Value)) (dst : Doc) (sk : Finset String) (lg : List Action),
      (merge_dicts_go true strategy l dst sk lg).doc = dst := by
  intro l dst sk lg
  induction l, dst, sk, lg using merge_dicts_go.induct true strategy with
  | case1 dst sk lg =>
    rw [merge_dicts_go]
  | case2 key value rest dst sk lg dval hdk hpy ih =>
    rw [merge_dicts_go]
    simp only [hdk]
    rw [if_pos hpy]
    exact ih
  | case3 key value rest dst sk lg dval hdk hpy hstrat ih =>
    rw [merge_dicts_go]
    simp only [hdk]
    rw [if_neg (by simp [hpy]), if_pos hstrat]
    exact ih
  | case4 key rest dst sk lg hstrat dd dd1 ks dd' log' heq hdk hpy ih1 ih2 =>
    rw [merge_dicts_go]
    simp only [hdk]
    rw [if_neg hpy, if_neg hstrat]
    by_cases hpd : pyDocEq dd dd1 = true
    · rw [dif_pos hpd] at heq
      cases heq
      rw [if_pos hpd]
      exact ih2.trans (aset_id dst key (.vmap dd1) hdk)
    · rw [dif_neg hpd] at heq
      have hdd' : dd' = dd1 := by
        rw [heq] at ih1
        exact ih1
      rw [if_neg hpd, heq]
      exact ih2.trans (by rw [hdd']; exact aset_id dst key (.vmap dd1) hdk)
  | case5 key rest dst sk lg hstrat dd dd1 dd' log' hdk hpy heq ih1 ih2 =>
    rw [merge_dicts_go]
    simp only [hdk]
    rw [if_neg hpy, if_neg hstrat]
    by_cases hpd : pyDocEq dd dd1 = true
    · rw [dif_pos hpd] at heq
      cases heq
    · rw [dif_neg hpd] at heq
      have hdd' : dd' = dd1 := by
        rw [heq] at ih1
        exact ih1
      rw [if_neg hpd, heq]
      exact ih2.trans (by rw [hdd']; exact aset_id dst key (.vmap dd1) hdk)
  | case6 key rest dst sk lg hstrat dd dd1 e dd' log' heq hne hdk hpy ih1 =>
    rw [merge_dicts_go]
    simp only [hdk]
    rw [if_neg hpy, if_neg hstrat]
    by_cases hpd : pyDocEq dd dd1 = true
    · rw [dif_pos hpd] at heq
      cases heq
    · rw [dif_neg hpd] at heq
      have hdd' : dd' = dd1 := by
        rw [heq] at ih1
        exact ih1
      rw [if_neg hpd, heq]
      simp only []
      rw [if_neg hne]
      rw [hdd']
      exact aset_id dst key (.vmap dd1) hdk
  | case7 key rest dst sk lg hstrat dd a hemp hdk hpy ih =>
    rw [merge_dicts_go]
    simp only [hdk]
    rw [if_neg hpy, if_neg hstrat, if_pos hemp]
    exact ih
  | case8 key rest dst sk lg hstrat dd a hemp hdk hpy =>
    rw [merge_dicts_go]
    simp only [hdk]
    rw [if_neg hpy, if_neg hstrat, if_neg hemp]
  | case9 key rest dst sk lg dval hdk hstrat a hpy ih =>
    rw [merge_dicts_go]
    simp only [hdk]
    rw [if_neg hpy, if_neg hstrat]
    exact ih
  | case10 key value rest dst sk lg hdk ih =>
    rw [merge_dicts_go]
    simp only [hdk]
    exact ih

theorem merge_dicts_dry (strategy : Option (String → Bool)) (src dst : Doc) :
    (merge_dicts true strategy src dst).doc = dst := by
  rw [merge_dicts]
  by_cases he : pyDocEq src dst = true
  · rw [if_pos he]
  · rw [if_neg he]
    exact merge_dicts_go_dry strategy src dst ∅ []

theorem copy_phase_dry (reMatch : String → String → Bool) (exclude : List String)
    (srcP dstP : String) (srcT : Subtree) :
    ∀ (names : List String) (dst : Subtree) (lg : List Action),
      (copy_phase true reMatch exclude srcP dstP srcT names dst lg).1 = dst := by
  intro names
  induction names with
  | nil =>
    intro dst lg
    rw [copy_phase]
  | cons fn rest ih =>
    intro dst lg
    rw [copy_phase]
    cases hex : excludeMatch reMatch exclude fn
    · rcases hl : alookup srcT fn with _ | entry
      · exact ih dst lg
      · cases entry with
        | file c => exact ih dst _
        | dir sd => exact ih dst _
    · exact ih dst lg

theorem diff_phase_dry (reMatch : String → String → Bool) (exclude : List String)
    (strategy : Option (String → String → Bool)) (srcP dstP : String) (srcT : Subtree) :
    ∀ (names : List String) (dst : Subtree) (lg : List Action),
      (diff_phase true reMatch exclude strategy srcP dstP srcT names dst lg).tree = dst := by
  intro names
  induction names with
  | nil =>
    intro dst lg
    rw [diff_phase]
  | cons fn rest ih =>
    intro dst lg
    rw [diff_phase.eq_def]
    simp only []
    cases hex : excludeMatch reMatch exclude fn
    · cases strategy with
      | none => rfl
      | some strat =>
        simp only []
        cases hst : strat (srcP ++ "/" ++ fn) (dstP ++ "/" ++ fn)
        · exact ih dst lg
        · rcases hl : alookup srcT fn with _ | entry
          · exact ih dst lg
          · cases entry with
            | file c => exact ih dst _
            | dir sd => exact ih dst lg
    · exact ih dst lg

theorem subdir_phase_dry (reMatch : String → String → Bool) (exclude : List String)
    (strategy : Option (String → String → Bool)) (srcP dstP : String) (srcT : Subtree)
    (H : ∀ (srcP' dstP' : String) (sd dd : Subtree), sizeOf sd < sizeOf srcT →
      (merge_dirs true reMatch exclude strategy srcP' dstP' sd dd).tree = dd) :
    ∀ (names : List String) (dst : Subtree) (lg : List Action),
      (subdir_phase true reMatch exclude strategy srcP dstP srcT names dst lg).tree = dst := by
  intro names
  induction names with
  | nil =>
    intro dst lg
    rw [subdir_phase]
  | cons nm rest ih =>
    intro dst lg
    rw [subdir_phase]
    rcases hl : dirAt srcT nm with _ | sd
    · rcases hd : alookup dst nm with _ | dentry
      · exact ih dst lg
      · exact ih dst lg
    · rcases hd : alookup dst nm with _ | dentry
      · exact ih dst lg
      · cases dentry with
        | file c => exact ih dst lg
        | dir dd =>
          simp only []
          split
          next e dd' lg' hrec =>
            have hdd' : dd' = dd := by
              have hx := H (srcP ++ "/" ++ nm) (dstP ++ "/" ++ nm) sd.val dd sd.2
              rw [hrec] at hx
              exact hx
            rw [hdd']
            exact aset_id dst nm (.dir dd) hd
          next u dd' lg' hrec =>
            have hdd' : dd' = dd := by
              have hx := H (srcP ++ "/" ++ nm) (dstP ++ "/" ++ nm) sd.val dd sd.2
              rw [hrec] at hx
              exact hx
            rw [hdd']
            exact (ih (aset dst nm (.dir dd)) (lg ++ lg')).trans (aset_id dst nm (.dir dd) hd)

theorem merge_dirs_dry_aux (reMatch : String → String → Bool) (exclude : List String)
    (strategy : Option (String → String → Bool)) :
    ∀ (n : Nat) (srcT : Subtree), sizeOf srcT < n → ∀ (dstT : Subtree) (srcP dstP : String),
      (merge_dirs true reMatch exclude strategy srcP dstP srcT dstT).tree = dstT := by
  intro n
  induction n with
  | zero =>
    intro srcT h
    exact absurd h (Nat.not_lt_zero _)
  | succ n ih =>
    intro srcT hlt dstT srcP dstP
    rw [merge_dirs]
    rcases hcp : copy_phase true reMatch exclude srcP dstP srcT
        (leftOnlyNames srcT dstT) dstT [] with ⟨dst1, log1⟩
    have hc : dst1 = dstT := by
      have hx := copy_phase_dry reMatch exclude srcP dstP srcT
        (leftOnlyNames srcT dstT) dstT []
      rw [hcp] at hx
      exact hx
    simp only []
    rcases hdp : diff_phase true reMatch exclude strategy srcP dstP srcT
        (diffFileNames srcT dstT) dst1 log1 with ⟨res2, dst2, log2⟩
    have hd : dst2 = dst1 := by
      have hx := diff_phase_dry reMatch exclude strategy srcP dstP srcT
        (diffFileNames srcT dstT) dst1 log1
      rw [hdp] at hx
      exact hx
    cases res2 with
    | error e => exact hd.trans hc
    | ok u =>
      exact (subdir_phase_dry reMatch exclude strategy srcP dstP srcT
        (fun srcP' dstP' sd dd hsz => ih sd (by omega) dd srcP' dstP')
        (commonDirNames srcT dstT) dst2 log2).trans (hd.trans hc)

theorem merge_dirs_dry (reMatch : String → String → Bool) (exclude : List String)
    (strategy : Option (String → String → Bool)) (srcP dstP : String)
    (srcT dstT : Subtree) :
    (merge_dirs true reMatch exclude strategy srcP dstP srcT dstT).tree = dstT :=
  merge_dirs_dry_aux reMatch exclude strategy (sizeOf srcT + 1) srcT
    (Nat.lt_succ_self _) dstT srcP dstP

/-! ### Orchestration lemmas -/

theorem job_eta (j : Job) : ({ j with workspace := j.workspace, doc := j.doc } : Job) = j := by
  cases j
  rfl

theorem job_eta_ws (j : Job) : ({ j with workspace := j.workspace } : Job) = j := by
  cases j
  rfl

theorem project_jobs_eta (p : Project) : ({ p with jobs := p.jobs } : Project) = p := by
  cases p
  rfl

theorem findJob_jid : ∀ (js : List Job) (i : String) (dj : Job),
    findJob js i = some dj → dj.jid = i := by
  intro js
  induction js with
  | nil => intro i dj h; cases h
  | cons k t ih =>
    intro i dj h
    rw [findJob] at h
    by_cases hk : k.jid = i
    · rw [if_pos hk] at h
      cases h
      exact hk
    · rw [if_neg hk] at h
      exact ih i dj h

theorem findJob_writeJob : ∀ (js : List Job) (i : String) (dj : Job),
    findJob js i = some dj → writeJob js dj = js := by
  intro js
  induction js with
  | nil => intro i dj h; rfl
  | cons k t ih =>
    intro i dj h
    rw [findJob] at h
    by_cases hk : k.jid = i
    · rw [if_pos hk] at h
      cases h
      rw [writeJob, if_pos rfl]
    · rw [if_neg hk] at h
      have hj := findJob_jid t i dj h
      rw [writeJob, if_neg (by rw [hj]; exact hk), ih i dj h]

theorem merge_projects_loop_cons (dryRun : Bool) (reMatch : String → String → Bool)
    (strategy : Option (String → String → Bool)) (docStrategy : Option (String → Bool))
    (selection : Option (List String)) (j : Job) (rest : List Job) (dst : Project)
    (excl : Option (List String)) (sk : Finset String) (c m : Nat) (lg : List Action) :
    merge_projects_loop dryRun reMatch strategy docStrategy selection (j :: rest) dst excl
        sk c m lg =
      if (match selection with | none => false | some ids => !(ids.contains j.jid)) then
        merge_projects_loop dryRun reMatch strategy docStrategy selection rest dst excl
          sk c m lg
      else
        match cloneJob dst j with
        | .ok dst' =>
            merge_projects_loop dryRun reMatch strategy docStrategy selection rest dst' excl
              sk (c + 1) m lg
        | .error _ =>
          match findJob dst.jobs j.jid with
          | none => ⟨.error .notFound, dst, excl, sk, c, m, lg⟩
          | some dj =>
            match merge_jobs dryRun reMatch strategy docStrategy
                (match excl with | none => [] | some l => l) j dj with
            | ⟨.error e, dj', excl', lg'⟩ =>
                ⟨.error e, { dst with jobs := writeJob dst.jobs dj' },
                  (match excl with | none => none | some _ => some excl'), sk, c, m, lg ++ lg'⟩
            | ⟨.ok ks, dj', excl', lg'⟩ =>
                merge_projects_loop dryRun reMatch strategy docStrategy selection rest
                  { dst with jobs := writeJob dst.jobs dj' }
                  (match excl with | none => none | some _ => some excl')
                  (sk ∪ ks) c (m + 1) (lg ++ lg') := rfl

theorem merge_jobs_dry (reMatch : String → String → Bool)
    (strategy : Option (String → String → Bool)) (docStrategy : Option (String → Bool))
    (exclude : List String) (srcJob dstJob : Job) :
    (merge_jobs true reMatch strategy docStrategy exclude srcJob dstJob).job = dstJob := by
  rw [merge_jobs]
  cases hid : (srcJob.jid != dstJob.jid)
  · simp only [Bool.false_eq_true, if_false]
    rcases hmd : merge_dirs true reMatch (exclude ++ [fnManifest, fnDocument]) strategy
        srcJob.wsPath dstJob.wsPath srcJob.workspace dstJob.workspace with ⟨res, ws', lgd⟩
    have hws : ws' = dstJob.workspace := by
      have hx := merge_dirs_dry reMatch (exclude ++ [fnManifest, fnDocument]) strategy
        srcJob.wsPath dstJob.wsPath srcJob.workspace dstJob.workspace
      rw [hmd] at hx
      exact hx
    cases res with
    | error e =>
      exact (show ({ dstJob with workspace := ws' } : Job) = dstJob by rw [hws])
    | ok u =>
      rcases hmc : merge_dicts true docStrategy srcJob.doc dstJob.doc with ⟨res2, doc', lg2⟩
      have hdoc : doc' = dstJob.doc := by
        have hx := merge_dicts_dry docStrategy srcJob.doc dstJob.doc
        rw [hmc] at hx
        exact hx
      exact (show ({ dstJob with workspace := ws', doc := doc' } : Job) = dstJob by
        rw [hws, hdoc])
  · rfl

theorem merge_projects_loop_dry (reMatch : String → String → Bool)
    (strategy : Option (String → String → Bool)) (docStrategy : Option (String → Bool))
    (selection : Option (List String)) :
    ∀ (jobs : List Job) (dst : Project) (excl : Option (List String)) (sk : Finset String)
      (c m : Nat) (lg : List Action),
      (merge_projects_loop true reMatch strategy docStrategy selection jobs dst excl
          sk c m lg).dst.document = dst.document ∧
      ∃ new, (merge_projects_loop true reMatch strategy docStrategy selection jobs dst excl
          sk c m lg).dst.jobs = dst.jobs ++ new ∧ ∀ x ∈ new, x ∈ jobs := by
  intro jobs
  induction jobs with
  | nil =>
    intro dst excl sk c m lg
    rw [merge_projects_loop]
    exact ⟨rfl, [], by simp, by simp⟩
  | cons j rest ih =>
    intro dst excl sk c m lg
    rw [merge_projects_loop_cons]
    cases hsel : (match selection with | none => false | some ids => !(ids.contains j.jid))
    · simp only [Bool.false_eq_true, if_false]
      rcases hc : cloneJob dst j with e | dst'
      · simp only []
        rcases hf : findJob dst.jobs j.jid with _ | dj
        · exact ⟨rfl, [], by simp, by simp⟩
        · simp only []
          generalize (match excl with | none => [] | some l => l : List String) = E
          rcases hm : merge_jobs true reMatch strategy docStrategy E j dj
            with ⟨resj, dj', excl', lgj⟩
          have hdj : dj' = dj := by
            have hx := merge_jobs_dry reMatch strategy docStrategy E j dj
            rw [hm] at hx
            exact hx
          have hwj : writeJob dst.jobs dj' = dst.jobs := by
            rw [hdj]
            exact findJob_writeJob dst.jobs j.jid dj hf
          cases resj with
          | error e2 =>
            simp only []
            refine ⟨by trivial, [], ?_, by simp⟩
            show writeJob dst.jobs dj' = dst.jobs ++ []
            rw [hwj]
            simp
          | ok ks =>
            simp only []
            rcases ih { dst with jobs := writeJob dst.jobs dj' }
              (match excl with | none => none | some _ => some excl')
              (sk ∪ ks) c (m + 1) (lg ++ lgj) with ⟨hdoc, new, hjobs, hmem⟩
            have hj2 : ({ dst with jobs := writeJob dst.jobs dj' } : Project).jobs
                = dst.jobs := hwj
            exact ⟨hdoc, new, hjobs.trans (by rw [hj2]),
              fun x hx2 => by simp [hmem x hx2]⟩
      · simp only []
        have hdst' : dst' = { dst with jobs := dst.jobs ++ [j] } := by
          rw [cloneJob] at hc
          by_cases hfind : (findJob dst.jobs j.jid).isSome = true
          · rw [if_pos hfind] at hc
            cases hc
          · rw [if_neg hfind] at hc
            cases hc
            rfl
        subst hdst'
        rcases ih { dst with jobs := dst.jobs ++ [j] } excl sk (c + 1) m lg
          with ⟨hdoc, new, hjobs, hmem⟩
        refine ⟨hdoc, [j] ++ new, ?_, ?_⟩
        · rw [hjobs]
          simp
        · intro x hx
          rcases List.mem_append.mp hx with h | h
          · rcases List.mem_singleton.mp h with rfl
            simp
          · simp [hmem x h]
    · rcases ih dst excl sk c m lg with ⟨hdoc, new, hjobs, hmem⟩
      exact ⟨hdoc, new, hjobs, fun x hx => by simp [hmem x hx]⟩

/-! ### Claim C3 -/

/-- Claim C3 counterexample: with `dry_run=True`, a source unit absent from
the destination is still cloned into the destination: `destination.clone`
is invoked directly on the repository collaborator, bypassing the mutation
proxy, so the destination's unit set changes even in dry-run mode. -/
theorem c3_dry_run_counterexample :
    (merge_projects (fun p fn => p == fn)
        ⟨"/a", [], [], [⟨"j1", "/a/ws/j1", [], []⟩]⟩
        ⟨"/b", [], [], []⟩ none none none none true true).dst.jobs
      = [⟨"j1", "/a/ws/j1", [], []⟩] ∧
    (⟨"/b", [], [], []⟩ : Project).jobs = [] := by
  refine ⟨?_, rfl⟩
  simp +decide [merge_projects, merge_projects_loop, projectBeq, jobsBeq, docBeq, merge_dicts,
    pyDocEq, normDoc, sortPairs, cloneJob, findJob, listDiff]

/-- Claim C3 (amended): in dry-run mode every proxy action (`set_value`,
`copy`, `copytree`, `remove`, backup creation/removal) is logged but is a
no-op, so the repository document, and the workspaces and documents of all
pre-existing destination units, are unchanged; however `destination.clone`
is invoked directly on the repository collaborator, not through the proxy,
so source units absent from the destination are still added to it even in
dry-run mode (and those are the only change). -/
theorem c3_dry_run_no_proxy_mutation (reMatch : String → String → Bool)
    (source destination : Project) (exclude : Option (List String))
    (strategy : Option (String → String → Bool)) (docStrategy : Option (String → Bool))
    (selection : Option (List String)) (checkSchema : Bool) :
    (merge_projects reMatch source destination exclude strategy docStrategy selection
        checkSchema true).dst.document = destination.document ∧
    ∃ new, (merge_projects reMatch source destination exclude strategy docStrategy selection
        checkSchema true).dst.jobs = destination.jobs ++ new
      ∧ ∀ x ∈ new, x ∈ source.jobs := by
  rw [merge_projects]
  by_cases hpb : projectBeq source destination = true
  · rw [if_pos hpb]
    exact ⟨rfl, [], by simp, by simp⟩
  · rw [if_neg hpb]
    by_cases hsch : (checkSchema && !destination.schema.isEmpty
        && !(source.schema == destination.schema)
        && (!(listDiff source.schema destination.schema).isEmpty
            || !(listDiff destination.schema source.schema).isEmpty)) = true
    · rw [if_pos hsch]
      exact ⟨rfl, [], by simp, by simp⟩
    · rw [if_neg hsch]
      rcases hmc : merge_dicts true docStrategy source.document destination.document
        with ⟨res0, doc', lg0⟩
      have hdoc : doc' = destination.document := by
        have hx := merge_dicts_dry docStrategy source.document destination.document
        rw [hmc] at hx
        exact hx
      cases res0 with
      | error e =>
        simp only []
        exact ⟨hdoc, [], by simp, by simp⟩
      | ok sk0 =>
        simp only []
        have hloop := merge_projects_loop_dry reMatch strategy docStrategy selection
          source.jobs { destination with document := doc' } exclude sk0 0 0 lg0
        rcases hl : merge_projects_loop true reMatch strategy docStrategy selection
            source.jobs { destination with document := doc' } exclude sk0 0 0 lg0
          with ⟨resL, dstL, exclL, skL, cL, mL, lgL⟩
        rw [hl] at hloop
        rcases hloop with ⟨hdoc2, new, hjobs, hmem⟩
        have hdoc3 : dstL.document = destination.document := hdoc2.trans hdoc
        have hjobs2 : dstL.jobs = destination.jobs ++ new := hjobs
        cases resL with
        | error e => exact ⟨hdoc3, new, hjobs2, hmem⟩
        | ok u => exact ⟨hdoc3, new, hjobs2, hmem⟩

/-! ### Claim C10 -/

/-- The reserved filenames appended by `k` successive in-place extensions of
a shared exclusion list. -/
def reservedNames : Nat → List String
  | 0 => []
  | k + 1 => fnManifest :: fnDocument :: reservedNames k

theorem merge_jobs_extends_exclude (dryRun : Bool) (reMatch : String → String → Bool)
    (strategy : Option (String → String → Bool)) (docStrategy : Option (String → Bool))
    (exclude : List String) (srcJob dstJob : Job) (h : srcJob.jid = dstJob.jid) :
    (merge_jobs dryRun reMatch strategy docStrategy exclude srcJob dstJob).exclude
      = exclude ++ [fnManifest, fnDocument] := by
  rw [merge_jobs]
  have hid : (srcJob.jid != dstJob.jid) = false := by simp [h]
  rw [hid]
  simp only [Bool.false_eq_true, if_false]
  rcases hmd : merge_dirs dryRun reMatch (exclude ++ [fnManifest, fnDocument]) strategy
      srcJob.wsPath dstJob.wsPath srcJob.workspace dstJob.workspace with ⟨res, ws', lgd⟩
  cases res with
  | error e => rfl
  | ok u =>
    rcases hmc : merge_dicts dryRun docStrategy srcJob.doc dstJob.doc with ⟨res2, doc', lg2⟩
    rfl

theorem merge_projects_loop_exclude (dryRun : Bool) (reMatch : String → String → Bool)
    (strategy : Option (String → String → Bool)) (docStrategy : Option (String → Bool))
    (selection : Option (List String)) :
    ∀ (jobs : List Job) (dst : Project) (l : List String) (sk : Finset String)
      (c m : Nat) (lg : List Action),
      (merge_projects_loop dryRun reMatch strategy docStrategy selection jobs dst (some l)
          sk c m lg).res = .ok () →
      ∃ kcount,
        (merge_projects_loop dryRun reMatch strategy docStrategy selection jobs dst (some l)
            sk c m lg).excl = some (l ++ reservedNames kcount) ∧
        (merge_projects_loop dryRun reMatch strategy docStrategy selection jobs dst (some l)
            sk c m lg).merged = m + kcount := by
  intro jobs
  induction jobs with
  | nil =>
    intro dst l sk c m lg _
    rw [merge_projects_loop]
    exact ⟨0, by simp [reservedNames], by simp⟩
  | cons j rest ih =>
    intro dst l sk c m lg
    rw [merge_projects_loop_cons]
    simp only []
    cases hsel : (match selection with | none => false | some ids => !(ids.contains j.jid))
    · simp only [Bool.false_eq_true, if_false]
      rcases hc : cloneJob dst j with e | dst'
      · simp only []
        rcases hf : findJob dst.jobs j.jid with _ | dj
        · intro hres
          simp at hres
        · simp only []
          rcases hm : merge_jobs dryRun reMatch strategy docStrategy l j dj
            with ⟨resj, dj', excl', lgj⟩
          have hexcl' : excl' = l ++ [fnManifest, fnDocument] := by
            have hjid : j.jid = dj.jid := (findJob_jid dst.jobs j.jid dj hf).symm
            have hx := merge_jobs_extends_exclude dryRun reMatch strategy docStrategy
              l j dj hjid
            rw [hm] at hx
            exact hx
          cases resj with
          | error e2 =>
            intro hres
            simp at hres
          | ok ks =>
            intro hres
            rcases ih { dst with jobs := writeJob dst.jobs dj' } excl' (sk ∪ ks) c (m + 1)
              (lg ++ lgj) hres with ⟨k', hex, hm'⟩
            refine ⟨k' + 1, ?_, ?_⟩
            · rw [hex, hexcl']
              simp [reservedNames]
            · rw [hm']
              omega
      · intro hres
        rcases ih dst' l sk (c + 1) m lg hres with ⟨k', hex, hm'⟩
        exact ⟨k', hex, hm'⟩
    · intro hres
      rcases ih dst l sk c m lg hres with ⟨k', hex, hm'⟩
      exact ⟨k', hex, hm'⟩

/-- Claim C10: when the caller passes a list as the `exclude` argument to
the unit merge, that same list is extended in place with the reserved
manifest and document filenames before the directory merge, so the
caller-visible exclusion list is mutated; and repeated unit merges sharing
one list — as the repository merge's loop does — accumulate one duplicate
pair of reserved filenames per merged unit. -/
theorem c10_exclude_list_mutation :
    (∀ (dryRun : Bool) (reMatch : String → String → Bool)
      (strategy : Option (String → String → Bool)) (docStrategy : Option (String → Bool))
      (exclude : List String) (srcJob dstJob : Job), srcJob.jid = dstJob.jid →
      (merge_jobs dryRun reMatch strategy docStrategy exclude srcJob dstJob).exclude
        = exclude ++ [fnManifest, fnDocument]) ∧
    (∀ (dryRun : Bool) (reMatch : String → String → Bool)
      (strategy : Option (String → String → Bool)) (docStrategy : Option (String → Bool))
      (selection : Option (List String)) (jobs : List Job) (dst : Project)
      (l : List String) (sk : Finset String) (c m : Nat) (lg : List Action),
      (merge_projects_loop dryRun reMatch strategy docStrategy selection jobs dst (some l)
          sk c m lg).res = .ok () →
      ∃ kcount,
        (merge_projects_loop dryRun reMatch strategy docStrategy selection jobs dst (some l)
            sk c m lg).excl = some (l ++ reservedNames kcount) ∧
        (merge_projects_loop dryRun reMatch strategy docStrategy selection jobs dst (some l)
            sk c m lg).merged = m + kcount) :=
  ⟨fun dryRun reMatch strategy docStrategy exclude srcJob dstJob h =>
      merge_jobs_extends_exclude dryRun reMatch strategy docStrategy exclude srcJob dstJob h,
   fun dryRun reMatch strategy docStrategy selection jobs dst l sk c m lg hres =>
      merge_projects_loop_exclude dryRun reMatch strategy docStrategy selection jobs dst
        l sk c m lg hres⟩

theorem c10_exclude_list_mutation_witness :
    (merge_jobs false (fun p fn => p == fn) none none ["mypattern"]
        ⟨"j", "/a/ws/j", [], []⟩ ⟨"j", "/b/ws/j", [], []⟩).exclude
      = ["mypattern"] ++ [fnManifest, fnDocument] ∧
    ∃ kcount,
      (merge_projects_loop false (fun p fn => p == fn) none none none []
          ⟨"/b", [], [], []⟩ (some ["mypattern"]) ∅ 0 0 []).excl
        = some (["mypattern"] ++ reservedNames kcount) ∧
      (merge_projects_loop false (fun p fn => p == fn) none none none []
          ⟨"/b", [], [], []⟩ (some ["mypattern"]) ∅ 0 0 []).merged = 0 + kcount :=
  ⟨c10_exclude_list_mutation.1 false (fun p fn => p == fn) none none ["mypattern"]
      ⟨"j", "/a/ws/j", [], []⟩ ⟨"j", "/b/ws/j", [], []⟩ rfl,
   c10_exclude_list_mutation.2 false (fun p fn => p == fn) none none none []
      ⟨"/b", [], [], []⟩ ["mypattern"] ∅ 0 0 [] rfl⟩

/-! ### Claim C5 -/

theorem diff_phase_none_conflict (dryRun : Bool) (reMatch : String → String → Bool)
    (exclude : List String) (srcP dstP : String) (srcT : Subtree) :
    ∀ (names : List String) (dst : Subtree) (lg : List Action),
      (∃ g, g ∈ names ∧ excludeMatch reMatch exclude g = false) →
      ∃ g, diff_phase dryRun reMatch exclude none srcP dstP srcT names dst lg
          = ⟨.error (.mergeConflict g), dst, lg⟩ ∧ g ∈ names ∧
          excludeMatch reMatch exclude g = false := by
  intro names
  induction names with
  | nil =>
    intro dst lg h
    rcases h with ⟨g, hg, _⟩
    simp at hg
  | cons fn rest ih =>
    intro dst lg h
    rw [diff_phase.eq_def]
    simp only []
    cases hex : excludeMatch reMatch exclude fn
    · exact ⟨fn, rfl, by simp, hex⟩
    · have h' : ∃ g, g ∈ rest ∧ excludeMatch reMatch exclude g = false := by
        rcases h with ⟨g, hg, hgex⟩
        rcases List.mem_cons.mp hg with h1 | h2
        · subst h1
          rw [hex] at hgex
          cases hgex
        · exact ⟨g, h2, hgex⟩
      rcases ih dst lg h' with ⟨g, hres, hgmem, hgex⟩
      exact ⟨g, hres, by simp [hgmem], hgex⟩

theorem isDiffFile_intro (srcT dstT : Subtree) (fn : String) (c1 c2 : String)
    (h1 : alookup srcT fn = some (.file c1)) (h2 : alookup dstT fn = some (.file c2))
    (hne : c1 ≠ c2) : isDiffFile srcT dstT fn = true := by
  rw [isDiffFile]
  simp only [h1, h2]
  simpa using hne

theorem isDiffFile_elim (srcT dstT : Subtree) (g : String)
    (h : isDiffFile srcT dstT g = true) :
    ∃ c1 c2, alookup srcT g = some (.file c1) ∧ alookup dstT g = some (.file c2)
      ∧ c1 ≠ c2 := by
  rw [isDiffFile] at h
  split at h
  next c1 c2 heq1 heq2 => exact ⟨c1, c2, heq1, heq2, by simpa using h⟩
  next => cases h

theorem mem_diffFileNames (srcT dstT : Subtree) (fn : String) (c1 c2 : String)
    (h1 : alookup srcT fn = some (.file c1)) (h2 : alookup dstT fn = some (.file c2))
    (hne : c1 ≠ c2) : fn ∈ diffFileNames srcT dstT := by
  rw [diffFileNames, mem_sortStrs]
  exact List.mem_filter.mpr ⟨alookup_some_mem_akeys srcT fn _ h1,
    isDiffFile_intro srcT dstT fn c1 c2 h1 h2 hne⟩

theorem not_mem_leftOnly_of_dst (srcT dstT : Subtree) (fn : String) (v : FSEntry)
    (h : alookup dstT fn = some v) : ¬ fn ∈ leftOnlyNames srcT dstT := by
  intro hm
  rw [leftOnlyNames, mem_sortStrs] at hm
  have hx := (List.mem_filter.mp hm).2
  rw [h] at hx
  simp at hx

/-- Claim C5: for directories with a common entry that is a file on both
sides with differing content, merged with the null strategy and the entry
not excluded, the directory merge raises a `MergeConflict` error naming a
conflicting non-excluded entry (the given one, when it is the only such
entry), and the destination's file for the given entry keeps exactly its
pre-merge content. -/
theorem c5_null_strategy_conflict (dryRun : Bool) (reMatch : String → String → Bool)
    (exclude : List String) (srcP dstP : String) (srcT dstT : Subtree)
    (fn : String) (c1 c2 : String)
    (h1 : alookup srcT fn = some (.file c1)) (h2 : alookup dstT fn = some (.file c2))
    (hne : c1 ≠ c2) (hex : excludeMatch reMatch exclude fn = false) :
    (∃ g cg1 cg2, (merge_dirs dryRun reMatch exclude none srcP dstP srcT dstT).res
        = .error (.mergeConflict g)
      ∧ alookup srcT g = some (.file cg1) ∧ alookup dstT g = some (.file cg2)
      ∧ cg1 ≠ cg2 ∧ excludeMatch reMatch exclude g = false) ∧
    alookup (merge_dirs dryRun reMatch exclude none srcP dstP srcT dstT).tree fn
      = some (.file c2) := by
  have hdf : fn ∈ diffFileNames srcT dstT := mem_diffFileNames srcT dstT fn c1 c2 h1 h2 hne
  rw [merge_dirs]
  rcases hcp : copy_phase dryRun reMatch exclude srcP dstP srcT
      (leftOnlyNames srcT dstT) dstT [] with ⟨dst1, log1⟩
  have hc1 : alookup dst1 fn = some (.file c2) := by
    have hx := copy_phase_preserves dryRun reMatch exclude srcP dstP srcT
      (leftOnlyNames srcT dstT) dstT [] fn (not_mem_leftOnly_of_dst srcT dstT fn _ h2)
    rw [hcp] at hx
    rw [hx, h2]
  simp only []
  rcases diff_phase_none_conflict dryRun reMatch exclude srcP dstP srcT
      (diffFileNames srcT dstT) dst1 log1 ⟨fn, hdf, hex⟩ with ⟨g, hres, hgmem, hgex⟩
  rw [hres]
  rw [diffFileNames, mem_sortStrs] at hgmem
  obtain ⟨cg1, cg2, hg1, hg2, hgne⟩ :=
    isDiffFile_elim srcT dstT g (List.mem_filter.mp hgmem).2
  exact ⟨⟨g, cg1, cg2, rfl, hg1, hg2, hgne, hgex⟩, hc1⟩

theorem c5_null_strategy_conflict_witness :
    (∃ g cg1 cg2, (merge_dirs false (fun p fn => p == fn) [] none "S" "D"
        [("x.txt", .file "a")] [("x.txt", .file "b")]).res = .error (.mergeConflict g)
      ∧ alookup [("x.txt", FSEntry.file "a")] g = some (.file cg1)
      ∧ alookup [("x.txt", FSEntry.file "b")] g = some (.file cg2)
      ∧ cg1 ≠ cg2 ∧ excludeMatch (fun p fn => p == fn) [] g = false) ∧
    alookup (merge_dirs false (fun p fn => p == fn) [] none "S" "D"
        [("x.txt", .file "a")] [("x.txt", .file "b")]).tree "x.txt"
      = some (.file "b") :=
  c5_null_strategy_conflict false (fun p fn => p == fn) [] "S" "D"
    [("x.txt", .file "a")] [("x.txt", .file "b")] "x.txt" "a" "b"
    rfl rfl (by decide) rfl

/-! ### Claim C2 -/

/-- An action is exclusion-respecting if, whenever it is a file copy or a
tree copy, the entry name it operates on (the common final path component
of its source and target) does not match the exclusion list. -/
def nameOk (reMatch : String → String → Bool) (exclude : List String) : Action → Prop
  | .copy s d => ∃ p q fn, s = p ++ "/" ++ fn ∧ d = q ++ "/" ++ fn
      ∧ excludeMatch reMatch exclude fn = false
  | .copytree s d => ∃ p q fn, s = p ++ "/" ++ fn ∧ d = q ++ "/" ++ fn
      ∧ excludeMatch reMatch exclude fn = false
  | .set_value _ _ => True
  | .remove _ => True

theorem copy_phase_log (dryRun : Bool) (reMatch : String → String → Bool)
    (exclude : List String) (srcP dstP : String) (srcT : Subtree) :
    ∀ (names : List String) (dst : Subtree) (lg : List Action),
      (∀ a ∈ lg, nameOk reMatch exclude a) →
      ∀ a ∈ (copy_phase dryRun reMatch exclude srcP dstP srcT names dst lg).2,
        nameOk reMatch exclude a := by
  intro names
  induction names with
  | nil =>
    intro dst lg hlg
    rw [copy_phase]
    exact hlg
  | cons fn rest ih =>
    intro dst lg hlg
    rw [copy_phase]
    cases hex : excludeMatch reMatch exclude fn
    · rcases hl : alookup srcT fn with _ | entry
      · exact ih dst lg hlg
      · cases entry with
        | file c =>
          refine ih _ _ ?_
          intro a ha
          rcases List.mem_append.mp ha with h | h
          · exact hlg a h
          · rcases List.mem_singleton.mp h with rfl
            exact ⟨srcP, dstP, fn, rfl, rfl, hex⟩
        | dir sd =>
          refine ih _ _ ?_
          intro a ha
          rcases List.mem_append.mp ha with h | h
          · exact hlg a h
          · rcases List.mem_singleton.mp h with rfl
            exact ⟨srcP, dstP, fn, rfl, rfl, hex⟩
    · exact ih dst lg hlg

theorem diff_phase_log (dryRun : Bool) (reMatch : String → String → Bool)
    (exclude : List String) (strategy : Option (String → String → Bool))
    (srcP dstP : String) (srcT : Subtree) :
    ∀ (names : List String) (dst : Subtree) (lg : List Action),
      (∀ a ∈ lg, nameOk reMatch exclude a) →
      ∀ a ∈ (diff_phase dryRun reMatch exclude strategy srcP dstP srcT names dst lg).log,
        nameOk reMatch exclude a := by
  intro names
  induction names with
  | nil =>
    intro dst lg hlg
    rw [diff_phase]
    exact hlg
  | cons fn rest ih =>
    intro dst lg hlg
    rw [diff_phase.eq_def]
    simp only []
    cases hex : excludeMatch reMatch exclude fn
    · cases strategy with
      | none => exact hlg
      | some strat =>
        simp only []
        cases hst : strat (srcP ++ "/" ++ fn) (dstP ++ "/" ++ fn)
        · exact ih dst lg hlg
        · rcases hl : alookup srcT fn with _ | entry
          · exact ih dst lg hlg
          · cases entry with
            | file c =>
              refine ih _ _ ?_
              intro a ha
              rcases List.mem_append.mp ha with h | h
              · exact hlg a h
              · rcases List.mem_singleton.mp h with rfl
                exact ⟨srcP, dstP, fn, rfl, rfl, hex⟩
            | dir sd =>
              exact ih dst lg hlg
    · exact ih dst lg hlg

theorem subdir_phase_log (dryRun : Bool) (reMatch : String → String → Bool)
    (exclude : List String) (strategy : Option (String → String → Bool))
    (srcP dstP : String) (srcT : Subtree)
    (H : ∀ (srcP' dstP' : String) (sd dd : Subtree), sizeOf sd < sizeOf srcT →
      ∀ a ∈ (merge_dirs dryRun reMatch exclude strategy srcP' dstP' sd dd).log,
        nameOk reMatch exclude a) :
    ∀ (names : List String) (dst : Subtree) (lg : List Action),
      (∀ a ∈ lg, nameOk reMatch exclude a) →
      ∀ a ∈ (subdir_phase dryRun reMatch exclude strategy srcP dstP srcT names dst lg).log,
        nameOk reMatch exclude a := by
  intro names
  induction names with
  | nil =>
    intro dst lg hlg
    rw [subdir_phase]
    exact hlg
  | cons nm rest ih =>
    intro dst lg hlg
    rw [subdir_phase]
    rcases hl : dirAt srcT nm with _ | sd
    · rcases hd : alookup dst nm with _ | dentry
      · exact ih dst lg hlg
      · exact ih dst lg hlg
    · rcases hd : alookup dst nm with _ | dentry
      · exact ih dst lg hlg
      · cases dentry with
        | file c => exact ih dst lg hlg
        | dir dd =>
          simp only []
          split
          next e dd' lg' hrec =>
            intro a ha
            rcases List.mem_append.mp ha with h | h
            · exact hlg a h
            · refine H (srcP ++ "/" ++ nm) (dstP ++ "/" ++ nm) sd.val dd sd.2 a ?_
              rw [hrec]
              exact h
          next u dd' lg' hrec =>
            refine ih _ _ ?_
            intro a ha
            rcases List.mem_append.mp ha with h | h
            · exact hlg a h
            · refine H (srcP ++ "/" ++ nm) (dstP ++ "/" ++ nm) sd.val dd sd.2 a ?_
              rw [hrec]
              exact h

theorem merge_dirs_log_aux (dryRun : Bool) (reMatch : String → String → Bool)
    (exclude : List String) (strategy : Option (String → String → Bool)) :
    ∀ (n : Nat) (srcT : Subtree), sizeOf srcT < n → ∀ (dstT : Subtree) (srcP dstP : String),
      ∀ a ∈ (merge_dirs dryRun reMatch exclude strategy srcP dstP srcT dstT).log,
        nameOk reMatch exclude a := by
  intro n
  induction n with
  | zero =>
    intro srcT h
    exact absurd h (Nat.not_lt_zero _)
  | succ n ih =>
    intro srcT hlt dstT srcP dstP
    rw [merge_dirs]
    rcases hcp : copy_phase dryRun reMatch exclude srcP dstP srcT
        (leftOnlyNames srcT dstT) dstT [] with ⟨dst1, log1⟩
    have hlog1 : ∀ a ∈ log1, nameOk reMatch exclude a := by
      have hx := copy_phase_log dryRun reMatch exclude srcP dstP srcT
        (leftOnlyNames srcT dstT) dstT [] (by simp)
      rw [hcp] at hx
      exact hx
    simp only []
    rcases hdp : diff_phase dryRun reMatch exclude strategy srcP dstP srcT
        (diffFileNames srcT dstT) dst1 log1 with ⟨res2, dst2, log2⟩
    have hlog2 : ∀ a ∈ log2, nameOk reMatch exclude a := by
      have hx := diff_phase_log dryRun reMatch exclude strategy srcP dstP srcT
        (diffFileNames srcT dstT) dst1 log1 hlog1
      rw [hdp] at hx
      exact hx
    cases res2 with
    | error e => exact hlog2
    | ok u =>
      exact subdir_phase_log dryRun reMatch exclude strategy srcP dstP srcT
        (fun srcP' dstP' sd dd hsz => ih sd (by omega) dd srcP' dstP')
        (commonDirNames srcT dstT) dst2 log2 hlog2

/-- Claim C2 counterexample: with exclusion pattern list `["x.txt"]` (and the
regex matcher instantiated as string equality), a subdirectory `d` present
only in the source and containing the excluded file `x.txt` is copied
wholesale into the destination by `copytree`, so after the merge the
destination holds `d/x.txt` even though `x.txt` matches the exclusion
pattern and the destination was empty before. -/
theorem c2_exclusion_counterexample :
    (merge_dirs false (fun p fn => p == fn) ["x.txt"] none "S" "D"
        [("d", .dir [("x.txt", .file "data")])] []).tree
      = [("d", .dir [("x.txt", .file "data")])] ∧
    (merge_dirs false (fun p fn => p == fn) ["x.txt"] none "S" "D"
        [("d", .dir [("x.txt", .file "data")])] []).log
      = [.copytree ("S" ++ "/" ++ "d") ("D" ++ "/" ++ "d")] ∧
    excludeMatch (fun p fn => p == fn) ["x.txt"] "x.txt" = true := by
  refine ⟨?_, ?_, by decide⟩ <;>
    simp +decide [merge_dirs, subdir_phase, copy_phase, diff_phase, leftOnlyNames,
      diffFileNames, commonDirNames, akeys, alookup, aset, sortStrs, insertStr,
      excludeMatch, isDiffFile, isCommonDir, dirAt]

/-- Claim C2 (amended): the directory merge never copies, as an entry it
directly processes at any recursion depth, a file or directory whose own
name matches an exclusion pattern: every `copy` and `copytree` action in
the proxy log operates on a path whose final component is a non-excluded
entry name.  (A file nested inside a source-only subdirectory whose own
name is not excluded is still copied wholesale by `copytree`, as the
counterexample shows.) -/
theorem c2_no_directly_copied_excluded_entry (dryRun : Bool)
    (reMatch : String → String → Bool) (exclude : List String)
    (strategy : Option (String → String → Bool)) (srcP dstP : String)
    (srcT dstT : Subtree) :
    ∀ a ∈ (merge_dirs dryRun reMatch exclude strategy srcP dstP srcT dstT).log,
      nameOk reMatch exclude a :=
  merge_dirs_log_aux dryRun reMatch exclude strategy (sizeOf srcT + 1) srcT
    (Nat.lt_succ_self _) dstT srcP dstP

theorem c2_no_directly_copied_excluded_entry_witness :
    (merge_dirs false (fun p fn => p == fn) ["skip.txt"] none "S" "D"
        [("a.txt", .file "x")] []).log = [.copy ("S" ++ "/" ++ "a.txt") ("D" ++ "/" ++ "a.txt")] ∧
    nameOk (fun p fn => p == fn) ["skip.txt"] (.copy ("S" ++ "/" ++ "a.txt") ("D" ++ "/" ++ "a.txt")) := by
  have hlog : (merge_dirs false (fun p fn => p == fn) ["skip.txt"] none "S" "D"
      [("a.txt", .file "x")] []).log
      = [.copy ("S" ++ "/" ++ "a.txt") ("D" ++ "/" ++ "a.txt")] := by
    simp +decide [merge_dirs, subdir_phase, copy_phase, diff_phase, leftOnlyNames,
      diffFileNames, commonDirNames, akeys, alookup, aset, sortStrs, insertStr,
      excludeMatch, isDiffFile, isCommonDir, dirAt]
  refine ⟨hlog, ?_⟩
  exact c2_no_directly_copied_excluded_entry false (fun p fn => p == fn) ["skip.txt"]
    none "S" "D" [("a.txt", .file "x")] []
    (.copy ("S" ++ "/" ++ "a.txt") ("D" ++ "/" ++ "a.txt")) (by rw [hlog]; simp)

/-! ### Claim C7 -/

theorem projectBeq_schema_eq (a b : Project) (h : projectBeq a b = true) :
    a.schema = b.schema := by
  rw [projectBeq] at h
  simp only [Bool.and_eq_true] at h
  simpa using h.1.2

theorem listDiff_nil_of_subset (l b : List String) (hall : ∀ x ∈ l, x ∈ b) :
    listDiff l b = [] := by
  induction l with
  | nil => rfl
  | cons x t ih =>
    have hx : b.contains x = true := by simpa using hall x (by simp)
    rw [listDiff] at ih ⊢
    rw [List.filter_cons]
    simp only [hx, Bool.not_true, Bool.false_eq_true, if_false]
    exact ih (fun y hy => hall y (by simp [hy]))

/-- Claim C7: merging with `check_schema` set, if the destination's schema is
non-empty and the asymmetric schema difference is non-empty in either
direction, the repository merge fails with a schema-conflict error carrying
both schemas, before any unit is processed and before the repository-level
document is merged, leaving the destination (including its unit count)
entirely unchanged. -/
theorem c7_schema_precheck (reMatch : String → String → Bool)
    (source destination : Project) (exclude : Option (List String))
    (strategy : Option (String → String → Bool)) (docStrategy : Option (String → Bool))
    (selection : Option (List String)) (dryRun : Bool)
    (hdst : destination.schema ≠ [])
    (hdiff : listDiff source.schema destination.schema ≠ []
      ∨ listDiff destination.schema source.schema ≠ []) :
    merge_projects reMatch source destination exclude strategy docStrategy selection
        true dryRun
      = ⟨.error (.mergeSchemaConflict source.schema destination.schema), destination,
          exclude, 0, 0, []⟩ := by
  have hschemas : source.schema ≠ destination.schema := by
    intro heq
    rcases hdiff with h | h
    · exact h (listDiff_nil_of_subset _ _ (fun x hx => heq ▸ hx))
    · exact h (listDiff_nil_of_subset _ _ (fun x hx => heq ▸ hx))
  have hproj : projectBeq source destination = false := by
    cases hpb : projectBeq source destination with
    | false => rfl
    | true => exact absurd (projectBeq_schema_eq _ _ hpb) hschemas
  have c1 : destination.schema.isEmpty = false := by
    rcases hd : destination.schema with _ | ⟨x, t⟩
    · exact absurd hd hdst
    · rfl
  have c2 : (source.schema == destination.schema) = false := by
    cases hb : source.schema == destination.schema with
    | false => rfl
    | true => exact absurd (by simpa using hb) hschemas
  have c3 : (!(listDiff source.schema destination.schema).isEmpty
      || !(listDiff destination.schema source.schema).isEmpty) = true := by
    rcases hdiff with h | h
    · rcases hl : listDiff source.schema destination.schema with _ | ⟨x, t⟩
      · exact absurd hl h
      · simp [hl]
    · rcases hl : listDiff destination.schema source.schema with _ | ⟨x, t⟩
      · exact absurd hl h
      · simp [hl]
  rw [merge_projects, if_neg (by simp [hproj]), if_pos (by simp [c1, c2, c3])]

theorem c7_schema_precheck_witness :
    (["x"] : List String) ≠ [] ∧
    (listDiff ["w"] ["x"] ≠ [] ∨ listDiff ["x"] ["w"] ≠ []) ∧
    merge_projects (fun p fn => p == fn) ⟨"/a", [], ["w"], []⟩ ⟨"/b", [], ["x"], []⟩
        none none none none true false
      = ⟨.error (.mergeSchemaConflict ["w"] ["x"]), ⟨"/b", [], ["x"], []⟩,
          none, 0, 0, []⟩ :=
  ⟨by simp, Or.inl (by decide),
    c7_schema_precheck (fun p fn => p == fn) ⟨"/a", [], ["w"], []⟩ ⟨"/b", [], ["x"], []⟩
      none none none none false (by simp) (Or.inl (by decide))⟩

theorem c1_transactional_rollback_witness :
    (merge_json_dicts_with false (some "f") (fun d => (.error .runtimeError, d))
        [("f", "orig")]).1 = .error .runtimeError ∧
    alookup (merge_json_dicts_with false (some "f") (fun d => (.error .runtimeError, d))
        [("f", "orig")]).2 "f" = alookup [("f", "orig")] "f" ∧
    diskIsFile (merge_json_dicts_with false (some "f")
        (fun d => (.error .runtimeError, d)) [("f", "orig")]).2 ("f" ++ "~") = false :=
  c1_transactional_rollback "f" [("f", "orig")] "orig" (fun d => (.error .runtimeError, d))
    .runtimeError (by decide) (by decide) (fun d p hp => rfl) rfl

end Sync
